import Mathlib

/-!
# Verification of the pageserver virtual file descriptor cache

This development is a shallow embedding of `pageserver/src/virtual_file.rs`:
a cache that multiplexes a fixed pool of physical file descriptors across
many logical `VirtualFile` handles using a clock-sweep eviction algorithm.

Modelling conventions:
* Machine integers (`u64`) are modelled as `Nat`, with an explicit `% 2 ^ 64`
  at the points where the Rust code performs wrapping `u64` arithmetic, and
  `i64`/`i128` arithmetic is modelled with `Int` (the Rust code widens to
  `i128` before comparing, so `Int` is exact there).
* The running process's interaction with the operating system is modelled by
  a `World` value: the pool of slots, an event trace (the syscall /
  metric-observation points of the source), and a `script` — the list of
  results the operating system returns to successive syscalls, consumed in
  program order.  An error injected in the script models a failing syscall.
* A positional read or write returns at most the requested byte count
  (the contract of `pread`/`pwrite`), hence the script value is clamped
  with `min` against the buffer length.
* Concurrency: the code is `async` and slots can be locked by other tasks.
  The embedding is a sequential interleaving model: a slot carries a
  `lockedByOther` flag (a non-blocking `try_write` on it fails), and the
  value another task may have stored in a handle while we waited for the
  handle's write lock is supplied explicitly as an `interf` parameter
  (one observation per acquisition of the handle lock).
* File contents are not modelled (no claim is about the bytes themselves);
  reads and writes carry byte counts delivered by the script.  The
  metric-label strings (`tenant_id`/`timeline_id`) of the source are
  observability-only and not part of the model.
-/

/-- The subset of `std::io::ErrorKind` used by `virtual_file.rs`. -/
inductive IoErrorKind
  | notFound
  | interrupted
  | unexpectedEof
  | writeZero
  | invalidInput
  | otherKind
  deriving DecidableEq, Repr

/-- A `std::io::Error`: a kind, an optional raw OS errno (`raw_os_error`),
and a message. -/
structure IoError where
  kind : IoErrorKind
  rawOsError : Option Int
  msg : String
  deriving DecidableEq, Repr

/-- Linux errno values used by the source (via `nix::errno`). -/
def eioErrno : Int := 5
def errnoEACCES : Int := 13
def errnoEINVAL : Int := 22
def errnoENOSPC : Int := 28
def errnoEROFS : Int := 30

/-- `is_fatal_io_error` from `virtual_file.rs`: errors whose OS code is
`EIO`, `EROFS` or `EACCES` always terminate the process; everything else
(including `ENOSPC` and errors without an OS code) is retryable. -/
def is_fatal_io_error (e : IoError) : Bool :=
  match e.rawOsError with
  | some c => c == eioErrno || c == errnoEROFS || c == errnoEACCES
  | none => false

/-- Outcome of running a fallible computation through the fatal-I/O helpers:
either the process was terminated (`std::process::abort` in
`on_fatal_io_error`), or a value is handed back to the caller. -/
inductive FatalOutcome (α : Type)
  | aborted
  | ret (r : Except IoError α)
  deriving Repr

/-- `MaybeFatalIo::maybe_fatal_err`: terminate the process if the result is
an error of a fatal type, else pass the result through unchanged. -/
def maybe_fatal_err {α : Type} (r : Except IoError α) : FatalOutcome α :=
  match r with
  | .error e => if is_fatal_io_error e then .aborted else .ret (.error e)
  | .ok v => .ret (.ok v)

/-- `std::fs::OpenOptions`, including the flags set through `OpenOptionsExt`
(`custom_flags`, `mode`). `OpenOptions::new()` starts with everything off. -/
structure OpenOptions where
  readFlag : Bool := false
  writeFlag : Bool := false
  appendFlag : Bool := false
  truncateFlag : Bool := false
  createFlag : Bool := false
  createNewFlag : Bool := false
  customFlags : Int := 0
  modeBits : Nat := 438
  deriving DecidableEq, Repr

def OpenOptions.new : OpenOptions := {}

def OpenOptions.read (o : OpenOptions) (b : Bool) : OpenOptions :=
  { o with readFlag := b }

def OpenOptions.write (o : OpenOptions) (b : Bool) : OpenOptions :=
  { o with writeFlag := b }

def OpenOptions.append (o : OpenOptions) (b : Bool) : OpenOptions :=
  { o with appendFlag := b }

def OpenOptions.truncate (o : OpenOptions) (b : Bool) : OpenOptions :=
  { o with truncateFlag := b }

def OpenOptions.create (o : OpenOptions) (b : Bool) : OpenOptions :=
  { o with createFlag := b }

def OpenOptions.create_new (o : OpenOptions) (b : Bool) : OpenOptions :=
  { o with createNewFlag := b }

/-- Claim C2: a `std::io::Result` routed through `maybe_fatal_err` terminates
the process if and only if the error's OS code is environment-fatal (eioErrno,
errnoEROFS or errnoEACCES); every other outcome — including an errnoENOSPC error and every
Ok value — is returned to the caller unchanged. -/
theorem maybe_fatal_err_classification {α : Type} (r : Except IoError α) :
    (maybe_fatal_err r = .aborted ↔
      ∃ e c, r = .error e ∧ e.rawOsError = some c ∧
        (c = eioErrno ∨ c = errnoEROFS ∨ c = errnoEACCES)) ∧
    (∀ e, r = .error e → e.rawOsError = some errnoENOSPC →
      maybe_fatal_err r = .ret r) ∧
    (∀ v, r = .ok v → maybe_fatal_err r = .ret r) ∧
    (maybe_fatal_err r ≠ .aborted → maybe_fatal_err r = .ret r) := by
  refine ⟨?_, ?_, ?_, ?_⟩
  · constructor
    · intro h
      match hr : r with
      | .ok v => simp [maybe_fatal_err, hr] at h
      | .error e =>
        refine ⟨e, ?_⟩
        simp only [maybe_fatal_err] at h
        by_cases hf : is_fatal_io_error e
        · unfold is_fatal_io_error at hf
          match he : e.rawOsError with
          | none => rw [he] at hf; simp at hf
          | some c =>
            rw [he] at hf
            simp only [Bool.or_eq_true, beq_iff_eq] at hf
            exact ⟨c, rfl, rfl, by tauto⟩
        · simp [hf] at h
    · rintro ⟨e, c, hr, he, hc⟩
      subst hr
      have hf : is_fatal_io_error e = true := by
        unfold is_fatal_io_error
        rw [he]
        simp only [Bool.or_eq_true, beq_iff_eq]
        tauto
      simp [maybe_fatal_err, hf]
  · intro e hr he
    subst hr
    have hf : is_fatal_io_error e = false := by
      unfold is_fatal_io_error
      rw [he]
      simp [eioErrno, errnoEROFS, errnoEACCES, errnoENOSPC]
    simp [maybe_fatal_err, hf]
  · intro v hr
    subst hr
    simp [maybe_fatal_err]
  · intro h
    match hr : r with
    | .ok v => simp [maybe_fatal_err]
    | .error e =>
      simp only [maybe_fatal_err] at h ⊢
      by_cases hf : is_fatal_io_error e
      · simp [hf] at h
      · simp [hf]

/-- Witness for C2: an `EIO` error aborts; an `ENOSPC` error and an `Ok`
value are passed through unchanged. -/
theorem maybe_fatal_err_classification_witness :
    @maybe_fatal_err Nat
      (.error { kind := .otherKind, rawOsError := some 5, msg := "" }) = .aborted ∧
    @maybe_fatal_err Nat
      (.error { kind := .otherKind, rawOsError := some 28, msg := "" }) =
      .ret (.error { kind := .otherKind, rawOsError := some 28, msg := "" }) ∧
    maybe_fatal_err (.ok 7) = .ret (.ok 7) := by
  refine ⟨?_, ?_, ?_⟩
  · exact (maybe_fatal_err_classification
      (.error { kind := .otherKind, rawOsError := some 5, msg := "" })).1.2
      ⟨_, 5, rfl, rfl, by norm_num [eioErrno]⟩
  · exact (maybe_fatal_err_classification
      (.error { kind := .otherKind, rawOsError := some 28, msg := "" })).2.1
      _ rfl (by norm_num [errnoENOSPC])
  · exact (maybe_fatal_err_classification (.ok 7)).2.2.1 7 rfl

/-- Identity of a physical file descriptor.  Fresh descriptors are numbered
by a counter in the `World`, so two distinct opens never share an id. -/
abbrev FileId := Nat

/-- `SlotInner`: the tag counter (incremented every time a different file is
stored here, to avoid the ABA problem) and the optional underlying file. -/
structure SlotInner where
  tag : Nat
  file : Option FileId
  deriving DecidableEq, Repr

/-- `Slot`: the lock-protected `SlotInner` plus the `recently_used` clock
flag.  `lockedByOther` models the slot's `RwLock` being held in write mode
by a different task, so that a non-blocking `try_write` fails. -/
structure Slot where
  inner : SlotInner
  recentlyUsed : Bool
  lockedByOther : Bool
  deriving DecidableEq, Repr

def Slot.empty : Slot :=
  { inner := { tag := 0, file := none }, recentlyUsed := false, lockedByOther := false }

instance : Inhabited Slot := ⟨Slot.empty⟩

/-- `OpenFiles`: the global pool of slots plus the clock arm `next`. -/
structure OpenFiles where
  slots : List Slot
  next : Nat
  deriving DecidableEq, Repr

/-- The `(index, tag)` pair cached by a `VirtualFile` (`SlotHandle`). -/
structure SlotHandle where
  index : Nat
  tag : Nat
  deriving DecidableEq, Repr

/-- Result of the clock-sweep loop inside `find_victim_slot`, together with
bookkeeping used to state the termination/bound claims: `index` is the victim
slot, `usedBlocking` records whether the final blocking `write().await`
fallback was taken, `attempts` counts the non-blocking `try_write` attempts,
`iters` counts loop iterations, and `pool` is the pool after the sweep. -/
structure VictimSearch where
  index : Nat
  usedBlocking : Bool
  attempts : Nat
  iters : Nat
  pool : OpenFiles
  deriving Repr

/-- The loop of `OpenFiles::find_victim_slot`.  The Rust loop counts
`retries` upwards and switches to a blocking lock acquisition once
`retries < num_slots * 2` fails; here `budget = num_slots * 2 - retries`
counts downwards so that the recursion is structural.  Each iteration
advances the clock arm (`fetch_add` then `% num_slots`); while budget
remains, the visited slot's `recently_used` flag is cleared (`swap(false)`)
and, if the flag was already clear, a non-blocking `try_write` is attempted;
once the budget is exhausted the next slot is acquired with a blocking wait
(which in this model always eventually succeeds, the liveness assumption
that other tasks release their slot locks). -/
def findVictimLoop (of : OpenFiles) (budget : Nat) : VictimSearch :=
  let n := of.slots.length
  let nextIdx := of.next % n
  let of1 : OpenFiles := { of with next := of.next + 1 }
  let slot := of1.slots.getD nextIdx default
  match budget with
  | 0 =>
      -- blocking fallback: `slot.inner.write().await`; the other task's
      -- exclusive lock is released before we acquire it
      let of2 : OpenFiles :=
        { of1 with slots := of1.slots.set nextIdx { slot with lockedByOther := false } }
      { index := nextIdx, usedBlocking := true, attempts := 0, iters := 1, pool := of2 }
  | b + 1 =>
      let ru := slot.recentlyUsed
      let of2 : OpenFiles :=
        { of1 with slots := of1.slots.set nextIdx { slot with recentlyUsed := false } }
      if !ru && !slot.lockedByOther then
        { index := nextIdx, usedBlocking := false, attempts := 1, iters := 1, pool := of2 }
      else
        let r := findVictimLoop of2 b
        { r with
          attempts := r.attempts + (if ru then 0 else 1),
          iters := r.iters + 1 }

/-- The events observed by the metrics sink / operating system, in program
order: the trace records both physical syscalls and the distinct
close / close-by-replace observation points of the source. -/
inductive Ev
  | evOpen (path : List String) (opts : OpenOptions)
  | evOpenAfterReplace (path : List String) (opts : OpenOptions)
  | evClose
  | evCloseByReplace
  | evRead (n : Nat)
  | evWrite (n : Nat)
  | evSeekEnd
  | evFsync
  | evMetadata
  | evRemoveFile (path : List String)
  | evRename (src dst : List String)
  deriving DecidableEq, Repr

/-- `camino::Utf8PathBuf`, modelled as a list of path components. -/
abbrev FsPath := List String

/-- `Utf8Path::parent`: none for the empty (root) path. -/
def parentPath (p : FsPath) : Option FsPath :=
  match p with
  | [] => none
  | _ :: _ => some p.dropLast

/-- The sequential-interleaving world: the pool, a fresh-descriptor counter,
which slot lock the running task currently holds (the guard returned by
`find_victim_slot`), the event trace, and the script of syscall results the
operating system will deliver, consumed in order. -/
structure World where
  openFiles : OpenFiles
  nextFileId : Nat
  held : Option Nat
  events : List Ev
  script : List (Except IoError Nat)
  deriving Repr

/-- Consume the next scripted syscall result, logging the event. -/
def World.pop (w : World) (ev : Ev) : World :=
  { w with script := w.script.tail, events := w.events ++ [ev] }

/-- Head of the script: an empty script means the syscall succeeds. -/
def World.scriptHead (w : World) : Except IoError Nat :=
  w.script.headD (.ok 0)

def World.getSlot (w : World) (i : Nat) : Slot :=
  w.openFiles.slots.getD i default

def World.setSlot (w : World) (i : Nat) (s : Slot) : World :=
  { w with openFiles := { w.openFiles with slots := w.openFiles.slots.set i s } }

/-- Tag of slot `i` (out-of-range reads return the default slot's tag 0). -/
def World.tagAt (w : World) (i : Nat) : Nat := (w.getSlot i).inner.tag

/-- Occupant of slot `i`. -/
def World.fileAt (w : World) (i : Nat) : Option FileId := (w.getSlot i).inner.file

/-- `slot.recently_used.store(true, Relaxed)`. -/
def World.markRecentlyUsed (w : World) (i : Nat) : World :=
  w.setSlot i { w.getSlot i with recentlyUsed := true }

/-- `OpenFiles::find_victim_slot`, the part after the sweep loop: with the
victim locked, close its old file if present (observed as the distinct
`close-by-replace` event), increment the tag, set `recently_used`, and
return the new `(index, tag)` handle with the exclusive lock still held
(`held`), ready for the caller to install a new descriptor. -/
def findVictimSlot (w : World) : SlotHandle × World :=
  let r := findVictimLoop w.openFiles (w.openFiles.slots.length * 2)
  let slot := r.pool.slots.getD r.index default
  let events1 :=
    match slot.inner.file with
    | some _ => w.events ++ [Ev.evCloseByReplace]
    | none => w.events
  let newTag := slot.inner.tag + 1
  let slot2 : Slot :=
    { inner := { tag := newTag, file := none }, recentlyUsed := true,
      lockedByOther := false }
  let pool2 : OpenFiles := { r.pool with slots := r.pool.slots.set r.index slot2 }
  ({ index := r.index, tag := newTag },
   { w with openFiles := pool2, events := events1, held := some r.index })

/-- `VirtualFile`: the cached slot handle, the logical position (`u64`), the
path, and the reopen options (creation/truncation flags stripped). -/
structure VirtualFile where
  handle : SlotHandle
  pos : Nat
  path : FsPath
  open_options : OpenOptions
  deriving Repr

/-- The physical `open_options.open(path)` syscall: consumes one script
entry; on success a fresh descriptor id is produced. -/
def sysOpen (ev : Ev) (w : World) : Except IoError FileId × World :=
  match w.scriptHead with
  | .ok _ => (.ok w.nextFileId, { w.pop ev with nextFileId := w.nextFileId + 1 })
  | .error e => (.error e, w.pop ev)

/-- Positional read (`FileExt::read_at`): the OS never transfers more than
the buffer length, so the scripted count is clamped with `min`. -/
def sysPRead (bufLen : Nat) (w : World) : Except IoError Nat × World :=
  match w.scriptHead with
  | .ok n => (.ok (min n bufLen), w.pop (Ev.evRead (min n bufLen)))
  | .error e => (.error e, w.pop (Ev.evRead 0))

/-- Positional write (`FileExt::write_at`), clamped like `sysPRead`. -/
def sysPWrite (bufLen : Nat) (w : World) : Except IoError Nat × World :=
  match w.scriptHead with
  | .ok n => (.ok (min n bufLen), w.pop (Ev.evWrite (min n bufLen)))
  | .error e => (.error e, w.pop (Ev.evWrite 0))

/-- `File::sync_all` (fsync). -/
def sysFsync (w : World) : Except IoError Unit × World :=
  match w.scriptHead with
  | .ok _ => (.ok (), w.pop Ev.evFsync)
  | .error e => (.error e, w.pop Ev.evFsync)

/-- `File::metadata` (stat); the scripted value stands for the metadata. -/
def sysMetadata (w : World) : Except IoError Nat × World :=
  match w.scriptHead with
  | .ok n => (.ok n, w.pop Ev.evMetadata)
  | .error e => (.error e, w.pop Ev.evMetadata)

/-- `file.seek(SeekFrom::End(off))`: the scripted value is the position the
operating system computes from the real end of file. -/
def sysSeekEnd (w : World) : Except IoError Nat × World :=
  match w.scriptHead with
  | .ok n => (.ok n, w.pop Ev.evSeekEnd)
  | .error e => (.error e, w.pop Ev.evSeekEnd)

/-- `std::fs::remove_file`. -/
def sysRemoveFile (p : FsPath) (w : World) : Except IoError Unit × World :=
  match w.scriptHead with
  | .ok _ => (.ok (), w.pop (Ev.evRemoveFile p))
  | .error e => (.error e, w.pop (Ev.evRemoveFile p))

/-- `std::fs::rename`. -/
def sysRename (src dst : FsPath) (w : World) : Except IoError Unit × World :=
  match w.scriptHead with
  | .ok _ => (.ok (), w.pop (Ev.evRename src dst))
  | .error e => (.error e, w.pop (Ev.evRename src dst))

/-- Validity of a cached slot handle: the slot's current tag equals the
cached tag and the slot holds a descriptor (`slot_guard.tag == handle.tag
&& slot_guard.file.is_some()`). -/
def slotValid (of : OpenFiles) (h : SlotHandle) : Bool :=
  let slot := of.slots.getD h.index default
  slot.inner.tag == h.tag && slot.inner.file.isSome

/-- Result of the retry loop at the top of `VirtualFile::lock_file`: either
the cached handle (possibly repaired by another task while we waited for the
handle's write lock) is valid — a cache hit — or it is definitively stale
and we hold the handle's write lock. -/
inductive LockAttempt
  | hitSlot (h : SlotHandle)
  | missSlot (h : SlotHandle)
  deriving DecidableEq, Repr

/-- The loop of `VirtualFile::lock_file`: check whether the slot still
contains our file; if not, grab the handle's write lock and re-check —
`interf` lists the handle values another task may have stored, one
observation per acquisition of the write lock (an empty list means the
handle is unchanged, `*handle_guard == handle`, and the loop breaks). -/
def lockFileLoop (of : OpenFiles) (h : SlotHandle) (interf : List SlotHandle) :
    LockAttempt :=
  if slotValid of h then .hitSlot h
  else
    match interf with
    | [] => .missSlot h
    | ih :: rest => if ih = h then .missSlot h else lockFileLoop of ih rest

/-- `VirtualFile::lock_file`: on a cache hit, mark the slot recently used
and return its handle; on a definitive miss, find a victim slot, re-open
the physical file with the stored reopen options and path (observed as
`OpenAfterReplace`, distinct from a first open), install the new
descriptor, and update the cached handle.  A reopen failure propagates the
error with the handle still stale. -/
def lockFile (vf : VirtualFile) (interf : List SlotHandle) (w : World) :
    Except IoError SlotHandle × VirtualFile × World :=
  match lockFileLoop w.openFiles vf.handle interf with
  | .hitSlot h => (.ok h, { vf with handle := h }, w.markRecentlyUsed h.index)
  | .missSlot h =>
    let vf1 : VirtualFile := { vf with handle := h }
    let (nh, w1) := findVictimSlot w
    match sysOpen (Ev.evOpenAfterReplace vf.path vf.open_options) w1 with
    | (.error e, w2) => (.error e, vf1, { w2 with held := none })
    | (.ok fid, w2) =>
      let w3 := w2.setSlot nh.index { w2.getSlot nh.index with
        inner := { (w2.getSlot nh.index).inner with file := some fid } }
      (.ok nh, { vf1 with handle := nh }, { w3 with held := none })

/-- `VirtualFile::open_with_options`: find a victim slot, perform the
physical open with the full requested options, strip the
creation/truncation flags for the stored reopen options, and install the
descriptor.  (The metric-label extraction from the path is not modelled.) -/
def open_with_options (path : FsPath) (opts : OpenOptions) (w : World) :
    Except IoError VirtualFile × World :=
  let (h, w1) := findVictimSlot w
  match sysOpen (Ev.evOpen path opts) w1 with
  | (.error e, w2) => (.error e, { w2 with held := none })
  | (.ok fid, w2) =>
    let reopen_options := ((opts.create false).create_new false).truncate false
    let vfile : VirtualFile :=
      { handle := h, pos := 0, path := path, open_options := reopen_options }
    let w3 := w2.setSlot h.index { w2.getSlot h.index with
      inner := { (w2.getSlot h.index).inner with file := some fid } }
    (.ok vfile, { w3 with held := none })

/-- `clean_slot` from `Drop for VirtualFile`: if the slot still carries our
tag, clear `recently_used` and close the descriptor if one is present (an
ordinary `close` observation, distinct from close-by-replace). -/
def cleanSlot (w : World) (idx tag : Nat) : World :=
  let slot := w.getSlot idx
  if slot.inner.tag = tag then
    match slot.inner.file with
    | some _ =>
      let slot1 : Slot :=
        { inner := { slot.inner with file := none }, recentlyUsed := false,
          lockedByOther := slot.lockedByOther }
      let w1 := w.setSlot idx slot1
      { w1 with events := w.events ++ [Ev.evClose] }
    | none => w.setSlot idx { slot with recentlyUsed := false }
  else w

/-- Dropping a `VirtualFile`: the destructor tries a non-blocking
`try_write` on the slot and, failing that, hands `clean_slot` to a
background task; in this sequential model the cleanup (which checks the tag
before acting) is performed at drop time either way. -/
def dropVirtualFile (vf : VirtualFile) (w : World) : World :=
  cleanSlot w vf.handle.index vf.handle.tag

/-- `VirtualFile::read_at`: resolve the descriptor through `lock_file`,
then issue the positional read.  (`_offset` is passed to the OS; the byte
movement itself is delivered by the script.) -/
def VirtualFile.read_at (vf : VirtualFile) (bufLen _offset : Nat)
    (interf : List SlotHandle) (w : World) :
    Except IoError Nat × VirtualFile × World :=
  match lockFile vf interf w with
  | (.error e, vf1, w1) => (.error e, vf1, w1)
  | (.ok _h, vf1, w1) =>
    let (r, w2) := sysPRead bufLen w1
    (r, vf1, w2)

/-- `VirtualFile::write_at`. -/
def VirtualFile.write_at (vf : VirtualFile) (bufLen _offset : Nat)
    (interf : List SlotHandle) (w : World) :
    Except IoError Nat × VirtualFile × World :=
  match lockFile vf interf w with
  | (.error e, vf1, w1) => (.error e, vf1, w1)
  | (.ok _h, vf1, w1) =>
    let (r, w2) := sysPWrite bufLen w1
    (r, vf1, w2)

/-- `VirtualFile::sync_all`. -/
def VirtualFile.sync_all (vf : VirtualFile) (interf : List SlotHandle) (w : World) :
    Except IoError Unit × VirtualFile × World :=
  match lockFile vf interf w with
  | (.error e, vf1, w1) => (.error e, vf1, w1)
  | (.ok _h, vf1, w1) =>
    let (r, w2) := sysFsync w1
    (r, vf1, w2)

/-- `VirtualFile::metadata`. -/
def VirtualFile.metadata (vf : VirtualFile) (interf : List SlotHandle) (w : World) :
    Except IoError Nat × VirtualFile × World :=
  match lockFile vf interf w with
  | (.error e, vf1, w1) => (.error e, vf1, w1)
  | (.ok _h, vf1, w1) =>
    let (r, w2) := sysMetadata w1
    (r, vf1, w2)

/-- `std::io::SeekFrom` (`End` is a Lean keyword, hence `fromEnd`). -/
inductive SeekFrom
  | start (n : Nat)
  | fromEnd (n : Int)
  | current (n : Int)
  deriving DecidableEq, Repr

def u64Max : Nat := 2 ^ 64 - 1

/-- `VirtualFile::seek`: `Start` and `Current` are purely logical (no
syscall); `End` resolves the descriptor and asks the OS for the position.
A `Current` target is computed in `i128` (exact `Int` arithmetic); a value
below zero or above `u64::MAX` is rejected with `InvalidInput` without
mutating the stored position.  A successful seek returns the new position. -/
def VirtualFile.seek (vf : VirtualFile) (pos : SeekFrom)
    (interf : List SlotHandle) (w : World) :
    Except IoError Nat × VirtualFile × World :=
  match pos with
  | .start offset => (.ok offset, { vf with pos := offset }, w)
  | .fromEnd _offset =>
    match lockFile vf interf w with
    | (.error e, vf1, w1) => (.error e, vf1, w1)
    | (.ok _h, vf1, w1) =>
      match sysSeekEnd w1 with
      | (.error e, w2) => (.error e, vf1, w2)
      | (.ok p, w2) => (.ok p, { vf1 with pos := p }, w2)
  | .current offset =>
    let p : Int := (vf.pos : Int) + offset
    if p < 0 then
      (.error { kind := .invalidInput, rawOsError := none,
                msg := "offset would be negative" }, vf, w)
    else if p > (u64Max : Int) then
      (.error { kind := .invalidInput, rawOsError := none,
                msg := "offset overflow" }, vf, w)
    else
      (.ok p.toNat, { vf with pos := p.toNat }, w)

theorem markRecentlyUsed_script (w : World) (i : Nat) :
    (w.markRecentlyUsed i).script = w.script := rfl

theorem findVictimSlot_script (w : World) :
    ((findVictimSlot w).2).script = w.script := rfl

theorem sysOpen_script_le (ev : Ev) (w : World) :
    ((sysOpen ev w).2).script.length ≤ w.script.length := by
  cases hs : w.script with
  | nil => simp [sysOpen, World.scriptHead, World.pop, hs]
  | cons a t =>
    cases a with
    | ok n => simp [sysOpen, World.scriptHead, World.pop, hs]
    | error e => simp [sysOpen, World.scriptHead, World.pop, hs]

theorem sysOpen_error_script_lt {ev : Ev} {w : World} {e : IoError}
    (h : (sysOpen ev w).1 = .error e) :
    ((sysOpen ev w).2).script.length < w.script.length := by
  cases hs : w.script with
  | nil => simp [sysOpen, World.scriptHead, hs] at h
  | cons a t =>
    cases a with
    | ok n => simp [sysOpen, World.scriptHead, hs] at h
    | error e' => simp [sysOpen, World.scriptHead, World.pop, hs]

theorem lockFile_script_le (vf : VirtualFile) (interf : List SlotHandle) (w : World) :
    ((lockFile vf interf w).2.2).script.length ≤ w.script.length := by
  unfold lockFile
  cases hl : lockFileLoop w.openFiles vf.handle interf with
  | hitSlot h => simp [markRecentlyUsed_script]
  | missSlot h =>
    simp only
    have hle := sysOpen_script_le (Ev.evOpenAfterReplace vf.path vf.open_options)
      (findVictimSlot w).2
    rw [findVictimSlot_script] at hle
    cases ho : sysOpen (Ev.evOpenAfterReplace vf.path vf.open_options) (findVictimSlot w).2 with
    | mk r w2 =>
      rw [ho] at hle
      cases r with
      | error e => simpa using hle
      | ok fid => simpa [World.setSlot] using hle

theorem lockFile_error_script_lt {vf : VirtualFile} {interf : List SlotHandle}
    {w : World} {e : IoError} {vfx : VirtualFile} {wx : World}
    (hres : lockFile vf interf w = (.error e, vfx, wx)) :
    wx.script.length < w.script.length := by
  unfold lockFile at hres
  cases hl : lockFileLoop w.openFiles vf.handle interf with
  | hitSlot h' => rw [hl] at hres; simp at hres
  | missSlot h' =>
    rw [hl] at hres
    simp only at hres
    rcases hfv : findVictimSlot w with ⟨nh, w1⟩
    rw [hfv] at hres
    have hw1 : w1.script = w.script := by
      have := findVictimSlot_script w
      rw [hfv] at this
      exact this
    cases ho : sysOpen (Ev.evOpenAfterReplace vf.path vf.open_options) w1 with
    | mk r w2 =>
      rw [ho] at hres
      cases r with
      | ok fid => simp at hres
      | error e' =>
        simp only at hres
        have hlt := @sysOpen_error_script_lt (Ev.evOpenAfterReplace vf.path vf.open_options)
          w1 e' (by rw [ho])
        rw [ho] at hlt
        have hwx : wx.script = w2.script := by
          cases hres
          rfl
        rw [hwx, ← hw1]
        exact hlt

/-- Any `read_at` outcome that lets a retry loop continue (a non-zero
transfer, or an error — in particular an interrupted one) strictly consumes
the syscall script. -/
theorem read_at_progress {vf : VirtualFile} {bufLen off : Nat}
    {interf : List SlotHandle} {w : World} {r : Except IoError Nat}
    {vf1 : VirtualFile} {w1 : World}
    (hcall : vf.read_at bufLen off interf w = (r, vf1, w1)) :
    (∀ n, r = .ok n → n ≠ 0 → w1.script.length < w.script.length) ∧
    (∀ e, r = .error e → w1.script.length < w.script.length) := by
  unfold VirtualFile.read_at at hcall
  rcases hlf : lockFile vf interf w with ⟨rl, vfa, wa⟩
  rw [hlf] at hcall
  have hle : wa.script.length ≤ w.script.length := by
    have := lockFile_script_le vf interf w
    rw [hlf] at this
    exact this
  cases rl with
  | error e =>
    simp only at hcall
    cases hcall
    exact ⟨fun n hn _ => absurd hn (by simp),
           fun e' _ => lockFile_error_script_lt hlf⟩
  | ok h =>
    simp only at hcall
    cases hs : wa.script with
    | nil =>
      rw [sysPRead, World.scriptHead, hs] at hcall
      simp only [List.headD_nil] at hcall
      cases hcall
      constructor
      · intro n hn hne
        simp only [Except.ok.injEq] at hn
        omega
      · intro e' he'; exact absurd he' (by simp)
    | cons a t =>
      have hlen : t.length < w.script.length := by
        have : wa.script.length = t.length + 1 := by rw [hs]; simp
        omega
      cases a with
      | ok k =>
        rw [sysPRead, World.scriptHead, hs] at hcall
        simp only [List.headD_cons] at hcall
        cases hcall
        constructor
        · intro n _ _
          simpa [World.pop, hs] using hlen
        · intro e' he'; exact absurd he' (by simp)
      | error e' =>
        rw [sysPRead, World.scriptHead, hs] at hcall
        simp only [List.headD_cons] at hcall
        cases hcall
        constructor
        · intro n hn _; exact absurd hn (by simp)
        · intro e'' _
          simpa [World.pop, hs] using hlen

/-- Same as `read_at_progress`, for `write_at`. -/
theorem write_at_progress {vf : VirtualFile} {bufLen off : Nat}
    {interf : List SlotHandle} {w : World} {r : Except IoError Nat}
    {vf1 : VirtualFile} {w1 : World}
    (hcall : vf.write_at bufLen off interf w = (r, vf1, w1)) :
    (∀ n, r = .ok n → n ≠ 0 → w1.script.length < w.script.length) ∧
    (∀ e, r = .error e → w1.script.length < w.script.length) := by
  unfold VirtualFile.write_at at hcall
  rcases hlf : lockFile vf interf w with ⟨rl, vfa, wa⟩
  rw [hlf] at hcall
  have hle : wa.script.length ≤ w.script.length := by
    have := lockFile_script_le vf interf w
    rw [hlf] at this
    exact this
  cases rl with
  | error e =>
    simp only at hcall
    cases hcall
    exact ⟨fun n hn _ => absurd hn (by simp),
           fun e' _ => lockFile_error_script_lt hlf⟩
  | ok h =>
    simp only at hcall
    cases hs : wa.script with
    | nil =>
      rw [sysPWrite, World.scriptHead, hs] at hcall
      simp only [List.headD_nil] at hcall
      cases hcall
      constructor
      · intro n hn hne
        simp only [Except.ok.injEq] at hn
        omega
      · intro e' he'; exact absurd he' (by simp)
    | cons a t =>
      have hlen : t.length < w.script.length := by
        have : wa.script.length = t.length + 1 := by rw [hs]; simp
        omega
      cases a with
      | ok k =>
        rw [sysPWrite, World.scriptHead, hs] at hcall
        simp only [List.headD_cons] at hcall
        cases hcall
        constructor
        · intro n _ _
          simpa [World.pop, hs] using hlen
        · intro e' he'; exact absurd he' (by simp)
      | error e' =>
        rw [sysPWrite, World.scriptHead, hs] at hcall
        simp only [List.headD_cons] at hcall
        cases hcall
        constructor
        · intro n hn _; exact absurd hn (by simp)
        · intro e'' _
          simpa [World.pop, hs] using hlen

/-- `VirtualFile::read_exact_at` (the loop copied from
`std::os::unix::fs::FileExt::read_exact_at`): loop `read_at` on the
remaining buffer until it is consumed; a zero-byte read is reported as
`UnexpectedEof`, an `Interrupted` error is retried without consuming
progress, any other error is propagated.  The returned `Nat` is the final
value of the local `offset` variable (instrumentation for the theorems). -/
def read_exact_at (vf : VirtualFile) (rem offset : Nat)
    (interf : List SlotHandle) (w : World) :
    Except IoError Unit × VirtualFile × Nat × World :=
  if rem = 0 then (.ok (), vf, offset, w)
  else
    match hcall : vf.read_at rem offset interf w with
    | (.ok 0, vf1, w1) =>
      (.error { kind := .unexpectedEof, rawOsError := none,
                msg := "failed to fill whole buffer" }, vf1, offset, w1)
    | (.ok (n + 1), vf1, w1) =>
      read_exact_at vf1 (rem - (n + 1)) ((offset + (n + 1)) % 2 ^ 64) interf w1
    | (.error e, vf1, w1) =>
      if e.kind = .interrupted then read_exact_at vf1 rem offset interf w1
      else (.error e, vf1, offset, w1)
termination_by w.script.length
decreasing_by
  · exact (read_at_progress hcall).1 _ rfl (by omega)
  · exact (read_at_progress hcall).2 _ rfl

/-- `VirtualFile::write_all_at` (the loop copied from
`std::os::unix::fs::FileExt::write_all_at`): like `read_exact_at` with a
zero-byte write reported as `WriteZero`. -/
def write_all_at (vf : VirtualFile) (rem offset : Nat)
    (interf : List SlotHandle) (w : World) :
    Except IoError Unit × VirtualFile × Nat × World :=
  if rem = 0 then (.ok (), vf, offset, w)
  else
    match hcall : vf.write_at rem offset interf w with
    | (.ok 0, vf1, w1) =>
      (.error { kind := .writeZero, rawOsError := none,
                msg := "failed to write whole buffer" }, vf1, offset, w1)
    | (.ok (n + 1), vf1, w1) =>
      write_all_at vf1 (rem - (n + 1)) ((offset + (n + 1)) % 2 ^ 64) interf w1
    | (.error e, vf1, w1) =>
      if e.kind = .interrupted then write_all_at vf1 rem offset interf w1
      else (.error e, vf1, offset, w1)
termination_by w.script.length
decreasing_by
  · exact (write_at_progress hcall).1 _ rfl (by omega)
  · exact (write_at_progress hcall).2 _ rfl

/-- `VirtualFile::write` (sequential): a positional write at the logical
cursor, which then advances the cursor by the bytes written (wrapping `u64`
addition). -/
def VirtualFile.write (vf : VirtualFile) (bufLen : Nat)
    (interf : List SlotHandle) (w : World) :
    Except IoError Nat × VirtualFile × World :=
  match vf.write_at bufLen vf.pos interf w with
  | (.error e, vf1, w1) => (.error e, vf1, w1)
  | (.ok n, vf1, w1) => (.ok n, { vf1 with pos := (vf1.pos + n) % 2 ^ 64 }, w1)

/-- Same as `write_at_progress`, lifted through `VirtualFile.write`. -/
theorem write_progress {vf : VirtualFile} {bufLen : Nat}
    {interf : List SlotHandle} {w : World} {r : Except IoError Nat}
    {vf1 : VirtualFile} {w1 : World}
    (hcall : vf.write bufLen interf w = (r, vf1, w1)) :
    (∀ n, r = .ok n → n ≠ 0 → w1.script.length < w.script.length) ∧
    (∀ e, r = .error e → w1.script.length < w.script.length) := by
  unfold VirtualFile.write at hcall
  rcases hwa : vf.write_at bufLen vf.pos interf w with ⟨rw, vfa, wa⟩
  rw [hwa] at hcall
  cases rw with
  | error e =>
    simp only at hcall
    cases hcall
    exact ⟨fun n hn _ => absurd hn (by simp),
           fun e' _ => (write_at_progress hwa).2 e rfl⟩
  | ok n =>
    simp only at hcall
    cases hcall
    exact ⟨fun m hm hne => (write_at_progress hwa).1 n rfl (by
            simp only [Except.ok.injEq] at hm
            omega),
           fun e' he' => absurd he' (by simp)⟩

/-- `VirtualFile::write_all`: loop the sequential `write` until the buffer
is consumed, with the same `WriteZero` / `Interrupted` handling as
`write_all_at`; the logical cursor advances by the amount written. -/
def write_all (vf : VirtualFile) (rem : Nat)
    (interf : List SlotHandle) (w : World) :
    Except IoError Unit × VirtualFile × World :=
  if rem = 0 then (.ok (), vf, w)
  else
    match hcall : vf.write rem interf w with
    | (.ok 0, vf1, w1) =>
      (.error { kind := .writeZero, rawOsError := none,
                msg := "failed to write whole buffer" }, vf1, w1)
    | (.ok (n + 1), vf1, w1) =>
      write_all vf1 (rem - (n + 1)) interf w1
    | (.error e, vf1, w1) =>
      if e.kind = .interrupted then write_all vf1 rem interf w1
      else (.error e, vf1, w1)
termination_by w.script.length
decreasing_by
  · exact (write_progress hcall).1 _ rfl (by omega)
  · exact (write_progress hcall).2 _ rfl

/-- Outcome of `VirtualFile::remove`: the function returns `()` or panics
(`expect`); there is no error return. -/
inductive RemoveOutcome
  | finished
  | panicked
  deriving DecidableEq, Repr

/-- `VirtualFile::remove`: clone the path, drop the handle (releasing its
slot), then `std::fs::remove_file(path).expect(..)` — any deletion failure,
including the file not existing, is a panic, never an error result. -/
def VirtualFile.remove (vf : VirtualFile) (w : World) : RemoveOutcome × World :=
  let path := vf.path
  let w1 := dropVirtualFile vf w
  match sysRemoveFile path w1 with
  | (.ok _, w2) => (.finished, w2)
  | (.error _, w2) => (.panicked, w2)

/-- Modelled from the spec: `utils::fs_ext::ignore_not_found`, whose source
is not part of this repository snapshot (only its call site in
`crashsafe_overwrite` is).  The spec for step 1 of the atomic replace says
"Remove any pre-existing file at `tmp_path`, ignoring a not-found error":
a `NotFound` error is converted to success, any other error is kept. -/
def ignore_not_found (e : IoError) : Except IoError Unit :=
  if e.kind = .notFound then .ok () else .error e

/-- The tail of `crashsafe_overwrite` after the content has been fully
written: fsync the temp file, drop the handle (explicitly, before the
rename), rename into place, open the parent directory and fsync it, then
drop the directory handle.  Factored out of `crashsafe_overwrite` so that
theorems can rewrite across the `write_all` call. -/
def afterWrite (final_path tmp_path final_path_parent : FsPath)
    (file1 : VirtualFile) (w3 : World) : Except IoError Unit × World :=
  match file1.sync_all [] w3 with
  | (.error e, file2, w4) => (.error e, dropVirtualFile file2 w4)
  | (.ok _, file2, w4) =>
    let w5 := dropVirtualFile file2 w4
    match sysRename tmp_path final_path w5 with
    | (.error e, w6) => (.error e, w6)
    | (.ok _, w6) =>
      match open_with_options final_path_parent
          ((OpenOptions.new).read true) w6 with
      | (.error e, w7) => (.error e, w7)
      | (.ok dirfd, w7) =>
        match dirfd.sync_all [] w7 with
        | (.error e, dirfd1, w8) => (.error e, dropVirtualFile dirfd1 w8)
        | (.ok _, dirfd1, w8) => (.ok (), dropVirtualFile dirfd1 w8)

/-- `VirtualFile::crashsafe_overwrite(final_path, tmp_path, content)`.
`contentLen` is the length of `content` (file bytes are outside the model).
The sequence of the source: require a parent of `final_path` (else
`EINVAL`); remove a pre-existing file at `tmp_path` ignoring `NotFound`
(`fs_ext::ignore_not_found`, see below); open `tmp_path` with
`write + create_new`; `write_all` the content; `sync_all`; drop the handle
(explicitly before the rename); `rename(tmp_path, final_path)`; open the
parent of `final_path` read-only and `sync_all` it (its handle is dropped
on scope exit, as is the tmp-file handle on the error paths). -/
def crashsafe_overwrite (final_path tmp_path : FsPath) (contentLen : Nat)
    (w : World) : Except IoError Unit × World :=
  match parentPath final_path with
  | none =>
    (.error { kind := .invalidInput, rawOsError := some errnoEINVAL, msg := "" }, w)
  | some final_path_parent =>
    let (r1, w1) := sysRemoveFile tmp_path w
    match (match r1 with
           | .ok _ => Except.ok ()
           | .error e => ignore_not_found e) with
    | .error e => (.error e, w1)
    | .ok _ =>
      match open_with_options tmp_path
          (((OpenOptions.new).write true).create_new true) w1 with
      | (.error e, w2) => (.error e, w2)
      | (.ok file, w2) =>
        match write_all file contentLen [] w2 with
        | (.error e, file1, w3) => (.error e, dropVirtualFile file1 w3)
        | (.ok _, file1, w3) => afterWrite final_path tmp_path final_path_parent file1 w3

/-- A freshly started process: `virtual_file::init(numSlots)` has created
the pool (`OpenFiles::new`: all slots empty, tag 0, clock arm at 0) and no
syscall has been issued yet. -/
def mkWorld (numSlots : Nat) (script : List (Except IoError Nat)) : World :=
  { openFiles := { slots := List.replicate numSlots Slot.empty, next := 0 },
    nextFileId := 0, held := none, events := [], script := script }

theorem getD_set {α : Type} (l : List α) (i j : Nat) (s d : α) :
    (l.set i s).getD j d = if i = j ∧ i < l.length then s else l.getD j d := by
  rw [List.getD_eq_getElem?_getD, List.getElem?_set, List.getD_eq_getElem?_getD]
  by_cases h1 : i = j
  · subst h1
    by_cases h2 : i < l.length
    · simp [h2]
    · simp [h2, List.getElem?_eq_none (by omega : l.length ≤ i)]
  · simp [h1]

/-- Bookkeeping facts about the clock-sweep loop: the pool size is
unchanged; the clock arm advances once per iteration (round-robin order);
the number of non-blocking lock attempts is bounded by the budget; the
loop runs at most budget + 1 iterations, the blocking fallback occurring
only on the very last one; the victim index is in range; and the sweep
never touches a slot's tag or occupant (it only manipulates the
recently-used flags and lock state). -/
theorem findVictimLoop_facts (b : Nat) (of : OpenFiles) :
    (findVictimLoop of b).pool.slots.length = of.slots.length ∧
    (findVictimLoop of b).pool.next = of.next + (findVictimLoop of b).iters ∧
    (findVictimLoop of b).attempts ≤ b ∧
    (findVictimLoop of b).iters ≤ b + 1 ∧
    ((findVictimLoop of b).usedBlocking = true →
      (findVictimLoop of b).iters = b + 1) ∧
    (0 < of.slots.length → (findVictimLoop of b).index < of.slots.length) ∧
    (∀ i, ((findVictimLoop of b).pool.slots.getD i default).inner =
      (of.slots.getD i default).inner) := by
  induction b generalizing of with
  | zero =>
    refine ⟨?_, ?_, ?_, ?_, ?_, ?_, ?_⟩
    · simp [findVictimLoop, List.length_set]
    · simp [findVictimLoop]
    · simp [findVictimLoop]
    · simp [findVictimLoop]
    · simp [findVictimLoop]
    · intro hn
      simp only [findVictimLoop]
      exact Nat.mod_lt _ hn
    · intro i
      simp only [findVictimLoop, getD_set]
      split
      · rename_i hcond
        rw [hcond.1]
      · rfl
  | succ b ih =>
    rw [findVictimLoop]
    simp only
    set slot := of.slots.getD (of.next % of.slots.length) default with hslot
    by_cases hc : (!slot.recentlyUsed && !slot.lockedByOther) = true
    · rw [if_pos hc]
      refine ⟨?_, ?_, ?_, ?_, ?_, ?_, ?_⟩
      · simp [List.length_set]
      · simp
      · simp
      · simp
      · simp
      · intro hn
        exact Nat.mod_lt _ hn
      · intro i
        simp only [getD_set]
        split
        · rename_i hcond
          rw [← hcond.1, ← hslot]
        · rfl
    · rw [if_neg hc]
      set of2 : OpenFiles :=
        { slots := of.slots.set (of.next % of.slots.length)
            { slot with recentlyUsed := false },
          next := of.next + 1 } with hof2
      have hlen2 : of2.slots.length = of.slots.length := by
        simp [hof2, List.length_set]
      obtain ⟨ihl, ihn, iha, ihi, ihb, ihx, iht⟩ := ih of2
      refine ⟨?_, ?_, ?_, ?_, ?_, ?_, ?_⟩
      · simpa [hlen2] using ihl
      · simp only
        rw [ihn]
        simp [hof2]
        omega
      · simp only
        split <;> omega
      · simp only
        omega
      · simp only
        intro hb
        rw [ihb hb]
      · intro hn
        simp only
        have := ihx (by omega)
        omega
      · intro i
        simp only
        rw [iht i]
        simp only [hof2, getD_set]
        split
        · rename_i hcond
          rw [← hcond.1, ← hslot]
        · rfl

/-- State characterization of `find_victim_slot`: the victim slot's tag is
bumped by one and its occupant evicted; every other slot's tag and occupant
are untouched. -/
theorem findVictimSlot_state (w : World) (i : Nat) :
    ((i = ((findVictimSlot w).1).index ∧ i < w.openFiles.slots.length) →
       ((findVictimSlot w).2).tagAt i = w.tagAt i + 1 ∧
       ((findVictimSlot w).2).fileAt i = none) ∧
    (¬(i = ((findVictimSlot w).1).index ∧ i < w.openFiles.slots.length) →
       ((findVictimSlot w).2).tagAt i = w.tagAt i ∧
       ((findVictimSlot w).2).fileAt i = w.fileAt i) := by
  set n := w.openFiles.slots.length with hn
  set r := findVictimLoop w.openFiles (n * 2) with hrdef
  obtain ⟨hlen, -, -, -, -, -, htags⟩ := findVictimLoop_facts (n * 2) w.openFiles
  rw [← hrdef] at hlen htags
  have hfst : ((findVictimSlot w).1).index = r.index := rfl
  have htagAt : ∀ j, ((findVictimSlot w).2).tagAt j =
      ((r.pool.slots.set r.index
        { inner := { tag := (r.pool.slots.getD r.index default).inner.tag + 1,
                     file := none },
          recentlyUsed := true, lockedByOther := false }).getD j default).inner.tag :=
    fun _ => rfl
  have hfileAt : ∀ j, ((findVictimSlot w).2).fileAt j =
      ((r.pool.slots.set r.index
        { inner := { tag := (r.pool.slots.getD r.index default).inner.tag + 1,
                     file := none },
          recentlyUsed := true, lockedByOther := false }).getD j default).inner.file :=
    fun _ => rfl
  constructor
  · rintro ⟨hi, hlt⟩
    rw [hfst] at hi
    have hcond : r.index = i ∧ r.index < r.pool.slots.length :=
      ⟨hi.symm, by rw [hlen, ← hi]; exact hlt⟩
    constructor
    · rw [htagAt i, getD_set, if_pos hcond, World.tagAt, World.getSlot, ← hi, htags]
    · rw [hfileAt i, getD_set, if_pos hcond]
  · intro hni
    rw [hfst] at hni
    have hncond : ¬(r.index = i ∧ r.index < r.pool.slots.length) := by
      intro hcond
      refine hni ⟨hcond.1.symm, ?_⟩
      have h2 : i < r.pool.slots.length := hcond.1 ▸ hcond.2
      rw [hlen] at h2
      exact h2
    constructor
    · rw [htagAt i, getD_set, if_neg hncond, World.tagAt, World.getSlot, htags]
    · rw [hfileAt i, getD_set, if_neg hncond, World.fileAt, World.getSlot, htags]

/-- Claim C4: `find_victim_slot` always terminates and never fails.  The
sweep visits slots in round-robin cursor order (the clock arm advances once
per iteration); the number of non-blocking `try_write` attempts is bounded
by twice the pool size; past that bound a single blocking wait on the next
slot in sequence is performed (it can only be the final iteration), so a
victim in range is always obtained — even when every slot is busy. -/
theorem find_victim_slot_terminates (of : OpenFiles) (h : 0 < of.slots.length) :
    (findVictimLoop of (of.slots.length * 2)).index < of.slots.length ∧
    (findVictimLoop of (of.slots.length * 2)).attempts ≤ of.slots.length * 2 ∧
    (findVictimLoop of (of.slots.length * 2)).iters ≤ of.slots.length * 2 + 1 ∧
    ((findVictimLoop of (of.slots.length * 2)).usedBlocking = true →
      (findVictimLoop of (of.slots.length * 2)).iters = of.slots.length * 2 + 1) ∧
    (findVictimLoop of (of.slots.length * 2)).pool.next =
      of.next + (findVictimLoop of (of.slots.length * 2)).iters ∧
    ∀ w : World, w.openFiles = of →
      ((findVictimSlot w).1).index < of.slots.length := by
  obtain ⟨hlen, hnext, hatt, hiters, hblock, hidx, -⟩ :=
    findVictimLoop_facts (of.slots.length * 2) of
  refine ⟨hidx h, hatt, hiters, hblock, hnext, ?_⟩
  intro w hw
  have hrfl : ((findVictimSlot w).1).index =
      (findVictimLoop w.openFiles (w.openFiles.slots.length * 2)).index := rfl
  rw [hrfl, hw]
  exact hidx h

/-- Witness for C4 on a two-slot pool in which every slot is recently used
and exclusively locked by other tasks: the sweep still obtains an in-range
victim, within the attempt bound, through the final blocking fallback. -/
theorem find_victim_slot_terminates_witness :
    (0 : Nat) <
      (OpenFiles.mk
        [{ inner := { tag := 0, file := none }, recentlyUsed := true,
           lockedByOther := true },
         { inner := { tag := 0, file := none }, recentlyUsed := true,
           lockedByOther := true }] 0).slots.length ∧
    (findVictimLoop
      (OpenFiles.mk
        [{ inner := { tag := 0, file := none }, recentlyUsed := true,
           lockedByOther := true },
         { inner := { tag := 0, file := none }, recentlyUsed := true,
           lockedByOther := true }] 0)
      ((OpenFiles.mk
        [{ inner := { tag := 0, file := none }, recentlyUsed := true,
           lockedByOther := true },
         { inner := { tag := 0, file := none }, recentlyUsed := true,
           lockedByOther := true }] 0).slots.length * 2)).index <
      (OpenFiles.mk
        [{ inner := { tag := 0, file := none }, recentlyUsed := true,
           lockedByOther := true },
         { inner := { tag := 0, file := none }, recentlyUsed := true,
           lockedByOther := true }] 0).slots.length ∧
    (findVictimLoop
      (OpenFiles.mk
        [{ inner := { tag := 0, file := none }, recentlyUsed := true,
           lockedByOther := true },
         { inner := { tag := 0, file := none }, recentlyUsed := true,
           lockedByOther := true }] 0)
      ((OpenFiles.mk
        [{ inner := { tag := 0, file := none }, recentlyUsed := true,
           lockedByOther := true },
         { inner := { tag := 0, file := none }, recentlyUsed := true,
           lockedByOther := true }] 0).slots.length * 2)).usedBlocking = true :=
  ⟨by decide,
   (find_victim_slot_terminates _ (by decide)).1,
   by decide⟩

/-- Claim C5: when `find_victim_slot` returns, the victim slot's previous
descriptor (if any) has been closed and observed as the `close-by-replace`
event, distinct from an ordinary `close`; the slot's tag has been
incremented by exactly one; its recently-used flag is set; the returned
`(index, tag)` handle refers to the (in-range) victim slot with the new
tag; and the exclusive lock is still held for the caller. -/
theorem find_victim_slot_postcondition (w : World)
    (h : 0 < w.openFiles.slots.length) :
    ((findVictimSlot w).2).tagAt ((findVictimSlot w).1).index =
      w.tagAt ((findVictimSlot w).1).index + 1 ∧
    ((findVictimSlot w).1).tag =
      ((findVictimSlot w).2).tagAt ((findVictimSlot w).1).index ∧
    (((findVictimSlot w).2).getSlot ((findVictimSlot w).1).index).recentlyUsed
      = true ∧
    ((findVictimSlot w).2).fileAt ((findVictimSlot w).1).index = none ∧
    ((findVictimSlot w).2).held = some ((findVictimSlot w).1).index ∧
    ((w.fileAt ((findVictimSlot w).1).index).isSome →
      ((findVictimSlot w).2).events = w.events ++ [Ev.evCloseByReplace]) ∧
    (w.fileAt ((findVictimSlot w).1).index = none →
      ((findVictimSlot w).2).events = w.events) ∧
    Ev.evCloseByReplace ≠ Ev.evClose ∧
    ((findVictimSlot w).1).index < w.openFiles.slots.length := by
  set r := findVictimLoop w.openFiles (w.openFiles.slots.length * 2) with hrdef
  obtain ⟨hlen, -, -, -, -, hidx, htags⟩ :=
    findVictimLoop_facts (w.openFiles.slots.length * 2) w.openFiles
  rw [← hrdef] at hlen htags hidx
  have hfst : ((findVictimSlot w).1).index = r.index := rfl
  have hlt : ((findVictimSlot w).1).index < w.openFiles.slots.length := by
    rw [hfst]; exact hidx h
  have hpos := (findVictimSlot_state w ((findVictimSlot w).1).index).1 ⟨rfl, hlt⟩
  have hcond : r.index = r.index ∧ r.index < r.pool.slots.length := by
    constructor
    · rfl
    · rw [hlen]; rw [hfst] at hlt; exact hlt
  refine ⟨hpos.1, ?_, ?_, hpos.2, rfl, ?_, ?_, by simp, hlt⟩
  · have htagv : ((findVictimSlot w).1).tag =
        (r.pool.slots.getD r.index default).inner.tag + 1 := rfl
    have htagAt : ((findVictimSlot w).2).tagAt ((findVictimSlot w).1).index =
        ((r.pool.slots.set r.index
          { inner := { tag := (r.pool.slots.getD r.index default).inner.tag + 1,
                       file := none },
            recentlyUsed := true, lockedByOther := false }).getD r.index
          default).inner.tag := rfl
    rw [htagv, htagAt, getD_set, if_pos hcond]
  · have hru : (((findVictimSlot w).2).getSlot ((findVictimSlot w).1).index).recentlyUsed =
        ((r.pool.slots.set r.index
          { inner := { tag := (r.pool.slots.getD r.index default).inner.tag + 1,
                       file := none },
            recentlyUsed := true, lockedByOther := false }).getD r.index
          default).recentlyUsed := rfl
    rw [hru, getD_set, if_pos hcond]
  · intro hsome
    have hev : ((findVictimSlot w).2).events =
        (match (r.pool.slots.getD r.index default).inner.file with
         | some _ => w.events ++ [Ev.evCloseByReplace]
         | none => w.events) := rfl
    have hfile : (r.pool.slots.getD r.index default).inner.file =
        w.fileAt ((findVictimSlot w).1).index := by
      rw [hfst]
      exact congrArg SlotInner.file (htags r.index)
    rw [hev, hfile]
    match hx : w.fileAt ((findVictimSlot w).1).index with
    | some fid => rfl
    | none => rw [hx] at hsome; simp at hsome
  · intro hnone
    have hev : ((findVictimSlot w).2).events =
        (match (r.pool.slots.getD r.index default).inner.file with
         | some _ => w.events ++ [Ev.evCloseByReplace]
         | none => w.events) := rfl
    have hfile : (r.pool.slots.getD r.index default).inner.file =
        w.fileAt ((findVictimSlot w).1).index := by
      rw [hfst]
      exact congrArg SlotInner.file (htags r.index)
    rw [hev, hfile, hnone]

/-- Witness for C5 on a one-slot pool whose slot holds descriptor 7 at tag
3: after `find_victim_slot` the tag is 4, the old occupant is gone, the
close was observed as close-by-replace, and the lock is held. -/
theorem find_victim_slot_postcondition_witness :
    (0 : Nat) <
      (World.mk (OpenFiles.mk
        [{ inner := { tag := 3, file := some 7 }, recentlyUsed := false,
           lockedByOther := false }] 0) 8 none [] []).openFiles.slots.length ∧
    ((findVictimSlot (World.mk (OpenFiles.mk
        [{ inner := { tag := 3, file := some 7 }, recentlyUsed := false,
           lockedByOther := false }] 0) 8 none [] [])).2).events =
      (World.mk (OpenFiles.mk
        [{ inner := { tag := 3, file := some 7 }, recentlyUsed := false,
           lockedByOther := false }] 0) 8 none [] []).events ++
        [Ev.evCloseByReplace] ∧
    ((findVictimSlot (World.mk (OpenFiles.mk
        [{ inner := { tag := 3, file := some 7 }, recentlyUsed := false,
           lockedByOther := false }] 0) 8 none [] [])).2).tagAt
      ((findVictimSlot (World.mk (OpenFiles.mk
        [{ inner := { tag := 3, file := some 7 }, recentlyUsed := false,
           lockedByOther := false }] 0) 8 none [] [])).1).index =
      (World.mk (OpenFiles.mk
        [{ inner := { tag := 3, file := some 7 }, recentlyUsed := false,
           lockedByOther := false }] 0) 8 none [] []).tagAt
        ((findVictimSlot (World.mk (OpenFiles.mk
          [{ inner := { tag := 3, file := some 7 }, recentlyUsed := false,
             lockedByOther := false }] 0) 8 none [] [])).1).index + 1 :=
  ⟨by decide,
   (find_victim_slot_postcondition _ (by decide)).2.2.2.2.2.1 (by decide),
   (find_victim_slot_postcondition _ (by decide)).1⟩

theorem sysOpen_openFiles (ev : Ev) (w : World) :
    ((sysOpen ev w).2).openFiles = w.openFiles := by
  unfold sysOpen
  cases h : w.scriptHead <;> simp [h, World.pop]

theorem markRecentlyUsed_inner (w : World) (i j : Nat) :
    ((w.markRecentlyUsed i).getSlot j).inner = (w.getSlot j).inner := by
  unfold World.markRecentlyUsed World.getSlot World.setSlot
  simp only [getD_set]
  split
  · rename_i hcond
    rw [← hcond.1]
  · rfl

theorem setSlot_tagAt (w : World) (k : Nat) (s : Slot)
    (htag : s.inner.tag = (w.getSlot k).inner.tag) (i : Nat) :
    (w.setSlot k s).tagAt i = w.tagAt i := by
  unfold World.tagAt World.getSlot World.setSlot
  simp only [getD_set]
  split
  · rename_i hcond
    rw [htag, ← hcond.1]
    rfl
  · rfl

theorem setSlot_fileAt_ne (w : World) (k : Nat) (s : Slot) (i : Nat)
    (h : ¬(k = i ∧ k < w.openFiles.slots.length)) :
    (w.setSlot k s).fileAt i = w.fileAt i := by
  unfold World.fileAt World.getSlot World.setSlot
  simp only [getD_set]
  rw [if_neg h]

theorem setSlot_fileAt_eq (w : World) (k : Nat) (s : Slot) (i : Nat)
    (h : k = i ∧ k < w.openFiles.slots.length) :
    (w.setSlot k s).fileAt i = s.inner.file := by
  unfold World.fileAt World.getSlot World.setSlot
  simp only [getD_set]
  rw [if_pos h]

theorem cleanSlot_tagAt (w : World) (idx tag i : Nat) :
    (cleanSlot w idx tag).tagAt i = w.tagAt i := by
  simp only [cleanSlot]
  split
  · split
    · exact setSlot_tagAt w idx
        { inner := { tag := (w.getSlot idx).inner.tag, file := none },
          recentlyUsed := false,
          lockedByOther := (w.getSlot idx).lockedByOther } rfl i
    · exact setSlot_tagAt w idx
        { inner := (w.getSlot idx).inner, recentlyUsed := false,
          lockedByOther := (w.getSlot idx).lockedByOther } rfl i
  · rfl

theorem cleanSlot_fileAt (w : World) (idx tag i : Nat) :
    (cleanSlot w idx tag).fileAt i = w.fileAt i ∨
    (cleanSlot w idx tag).fileAt i = none := by
  simp only [cleanSlot]
  split
  · split
    · by_cases hc : idx = i ∧ idx < w.openFiles.slots.length
      · right
        exact setSlot_fileAt_eq w idx
          { inner := { tag := (w.getSlot idx).inner.tag, file := none },
            recentlyUsed := false,
            lockedByOther := (w.getSlot idx).lockedByOther } i hc
      · left
        exact setSlot_fileAt_ne w idx
          { inner := { tag := (w.getSlot idx).inner.tag, file := none },
            recentlyUsed := false,
            lockedByOther := (w.getSlot idx).lockedByOther } i hc
    · by_cases hc : idx = i ∧ idx < w.openFiles.slots.length
      · rename_i hnone
        left
        have heq := setSlot_fileAt_eq w idx
          { inner := (w.getSlot idx).inner, recentlyUsed := false,
            lockedByOther := (w.getSlot idx).lockedByOther } i hc
        rw [heq]
        unfold World.fileAt World.getSlot
        rw [← hc.1]
      · left
        exact setSlot_fileAt_ne w idx
          { inner := (w.getSlot idx).inner, recentlyUsed := false,
            lockedByOther := (w.getSlot idx).lockedByOther } i hc
  · left
    rfl

theorem tagAt_congr {w1 w2 : World} (h : w1.openFiles = w2.openFiles) (i : Nat) :
    w1.tagAt i = w2.tagAt i := by
  unfold World.tagAt World.getSlot
  rw [h]

theorem fileAt_congr {w1 w2 : World} (h : w1.openFiles = w2.openFiles) (i : Nat) :
    w1.fileAt i = w2.fileAt i := by
  unfold World.fileAt World.getSlot
  rw [h]

theorem findVictimSlot_length (w : World) :
    ((findVictimSlot w).2).openFiles.slots.length = w.openFiles.slots.length := by
  have h1 : ((findVictimSlot w).2).openFiles.slots =
      ((findVictimLoop w.openFiles (w.openFiles.slots.length * 2)).pool.slots.set
        (findVictimLoop w.openFiles (w.openFiles.slots.length * 2)).index
        { inner := { tag := ((findVictimLoop w.openFiles
            (w.openFiles.slots.length * 2)).pool.slots.getD
            (findVictimLoop w.openFiles (w.openFiles.slots.length * 2)).index
            default).inner.tag + 1, file := none },
          recentlyUsed := true, lockedByOther := false }) := rfl
  rw [h1, List.length_set]
  exact (findVictimLoop_facts (w.openFiles.slots.length * 2) w.openFiles).1

theorem findVictimSlot_tag_le (w : World) (i : Nat) :
    w.tagAt i ≤ ((findVictimSlot w).2).tagAt i := by
  by_cases hc : i = ((findVictimSlot w).1).index ∧ i < w.openFiles.slots.length
  · rw [((findVictimSlot_state w i).1 hc).1]
    omega
  · rw [((findVictimSlot_state w i).2 hc).1]

theorem installSlot_tagAt (w : World) (k : Nat) (fid : FileId) (j : Nat) :
    (w.setSlot k { w.getSlot k with
      inner := { (w.getSlot k).inner with file := some fid } }).tagAt j
      = w.tagAt j :=
  setSlot_tagAt w k { w.getSlot k with
    inner := { (w.getSlot k).inner with file := some fid } } rfl j

theorem installSlot_fileAt_ne (w : World) (k : Nat) (fid : FileId) (i : Nat)
    (h : ¬(k = i ∧ k < w.openFiles.slots.length)) :
    (w.setSlot k { w.getSlot k with
      inner := { (w.getSlot k).inner with file := some fid } }).fileAt i
      = w.fileAt i :=
  setSlot_fileAt_ne w k { w.getSlot k with
    inner := { (w.getSlot k).inner with file := some fid } } i h

theorem installSlot_fileAt_eq (w : World) (k : Nat) (fid : FileId) (i : Nat)
    (h : k = i ∧ k < w.openFiles.slots.length) :
    (w.setSlot k { w.getSlot k with
      inner := { (w.getSlot k).inner with file := some fid } }).fileAt i
      = some fid :=
  setSlot_fileAt_eq w k { w.getSlot k with
    inner := { (w.getSlot k).inner with file := some fid } } i h

theorem open_with_options_tag_mono (p : FsPath) (o : OpenOptions) (w : World)
    (i : Nat) :
    w.tagAt i ≤ ((open_with_options p o w).2).tagAt i ∧
    (((open_with_options p o w).2).fileAt i ≠ w.fileAt i →
      (((open_with_options p o w).2).fileAt i).isSome →
      w.tagAt i < ((open_with_options p o w).2).tagAt i) := by
  unfold open_with_options
  rcases hfv : findVictimSlot w with ⟨h, w1⟩
  have hw1tag : ∀ j, w.tagAt j ≤ w1.tagAt j := by
    intro j
    have hj := findVictimSlot_tag_le w j
    rw [hfv] at hj
    exact hj
  have hstate := findVictimSlot_state w i
  rw [hfv] at hstate
  simp only at hstate
  have hlen1 : w1.openFiles.slots.length = w.openFiles.slots.length := by
    have hx := findVictimSlot_length w
    rw [hfv] at hx
    exact hx
  simp only
  cases ho : sysOpen (Ev.evOpen p o) w1 with
  | mk r w2 =>
    have hof2 : w2.openFiles = w1.openFiles := by
      have hx := sysOpen_openFiles (Ev.evOpen p o) w1
      rw [ho] at hx
      exact hx
    cases r with
    | error e =>
      simp only
      have hofF : (World.mk w2.openFiles w2.nextFileId none w2.events
          w2.script).openFiles = w1.openFiles := hof2
      constructor
      · rw [tagAt_congr hofF i]
        exact hw1tag i
      · intro hne hsome
        rw [fileAt_congr hofF i] at hne hsome
        rw [tagAt_congr hofF i]
        by_cases hc : i = h.index ∧ i < w.openFiles.slots.length
        · rw [(hstate.1 hc).2] at hsome
          simp at hsome
        · rw [(hstate.2 hc).2] at hne
          exact absurd rfl hne
    | ok fid =>
      simp only
      constructor
      · show w.tagAt i ≤ (w2.setSlot h.index { w2.getSlot h.index with
          inner := { (w2.getSlot h.index).inner with
            file := some fid } }).tagAt i
        rw [installSlot_tagAt w2 h.index fid i, tagAt_congr hof2 i]
        exact hw1tag i
      · intro hne hsome
        have hne2 : (w2.setSlot h.index { w2.getSlot h.index with
            inner := { (w2.getSlot h.index).inner with
              file := some fid } }).fileAt i ≠ w.fileAt i := hne
        have hsome2 : ((w2.setSlot h.index { w2.getSlot h.index with
            inner := { (w2.getSlot h.index).inner with
              file := some fid } }).fileAt i).isSome := hsome
        show w.tagAt i < (w2.setSlot h.index { w2.getSlot h.index with
          inner := { (w2.getSlot h.index).inner with
            file := some fid } }).tagAt i
        rw [installSlot_tagAt w2 h.index fid i, tagAt_congr hof2 i]
        by_cases hc2 : h.index = i ∧ h.index < w2.openFiles.slots.length
        · have hci : i = h.index ∧ i < w.openFiles.slots.length := by
            refine ⟨hc2.1.symm, ?_⟩
            rw [← hlen1, ← hof2, ← hc2.1]
            exact hc2.2
          rw [(hstate.1 hci).1]
          omega
        · rw [installSlot_fileAt_ne w2 h.index fid i hc2,
              fileAt_congr hof2 i] at hne2 hsome2
          by_cases hc : i = h.index ∧ i < w.openFiles.slots.length
          · rw [(hstate.1 hc).2] at hsome2
            simp at hsome2
          · rw [(hstate.2 hc).2] at hne2
            exact absurd rfl hne2

theorem lockFile_tag_mono (vf : VirtualFile) (interf : List SlotHandle)
    (w : World) (i : Nat) :
    w.tagAt i ≤ ((lockFile vf interf w).2.2).tagAt i ∧
    (((lockFile vf interf w).2.2).fileAt i ≠ w.fileAt i →
      (((lockFile vf interf w).2.2).fileAt i).isSome →
      w.tagAt i < ((lockFile vf interf w).2.2).tagAt i) := by
  unfold lockFile
  cases hl : lockFileLoop w.openFiles vf.handle interf with
  | hitSlot h =>
    simp only
    have htag : (w.markRecentlyUsed h.index).tagAt i = w.tagAt i :=
      congrArg SlotInner.tag (markRecentlyUsed_inner w h.index i)
    have hfile : (w.markRecentlyUsed h.index).fileAt i = w.fileAt i :=
      congrArg SlotInner.file (markRecentlyUsed_inner w h.index i)
    exact ⟨le_of_eq htag.symm, fun hne _ => absurd hfile hne⟩
  | missSlot h =>
    rcases hfv : findVictimSlot w with ⟨nh, w1⟩
    have hw1tag : ∀ j, w.tagAt j ≤ w1.tagAt j := by
      intro j
      have hj := findVictimSlot_tag_le w j
      rw [hfv] at hj
      exact hj
    have hstate := findVictimSlot_state w i
    rw [hfv] at hstate
    simp only at hstate
    have hlen1 : w1.openFiles.slots.length = w.openFiles.slots.length := by
      have hx := findVictimSlot_length w
      rw [hfv] at hx
      exact hx
    simp only
    cases ho : sysOpen (Ev.evOpenAfterReplace vf.path vf.open_options) w1 with
    | mk r w2 =>
      have hof2 : w2.openFiles = w1.openFiles := by
        have hx := sysOpen_openFiles (Ev.evOpenAfterReplace vf.path vf.open_options) w1
        rw [ho] at hx
        exact hx
      cases r with
      | error e =>
        simp only
        have hofF : (World.mk w2.openFiles w2.nextFileId none w2.events
            w2.script).openFiles = w1.openFiles := hof2
        constructor
        · rw [tagAt_congr hofF i]
          exact hw1tag i
        · intro hne hsome
          rw [fileAt_congr hofF i] at hne hsome
          rw [tagAt_congr hofF i]
          by_cases hc : i = nh.index ∧ i < w.openFiles.slots.length
          · rw [(hstate.1 hc).2] at hsome
            simp at hsome
          · rw [(hstate.2 hc).2] at hne
            exact absurd rfl hne
      | ok fid =>
        simp only
        constructor
        · show w.tagAt i ≤ (w2.setSlot nh.index { w2.getSlot nh.index with
            inner := { (w2.getSlot nh.index).inner with
              file := some fid } }).tagAt i
          rw [installSlot_tagAt w2 nh.index fid i, tagAt_congr hof2 i]
          exact hw1tag i
        · intro hne hsome
          have hne2 : (w2.setSlot nh.index { w2.getSlot nh.index with
              inner := { (w2.getSlot nh.index).inner with
                file := some fid } }).fileAt i ≠ w.fileAt i := hne
          have hsome2 : ((w2.setSlot nh.index { w2.getSlot nh.index with
              inner := { (w2.getSlot nh.index).inner with
                file := some fid } }).fileAt i).isSome := hsome
          show w.tagAt i < (w2.setSlot nh.index { w2.getSlot nh.index with
            inner := { (w2.getSlot nh.index).inner with
              file := some fid } }).tagAt i
          rw [installSlot_tagAt w2 nh.index fid i, tagAt_congr hof2 i]
          by_cases hc2 : nh.index = i ∧ nh.index < w2.openFiles.slots.length
          · have hci : i = nh.index ∧ i < w.openFiles.slots.length := by
              refine ⟨hc2.1.symm, ?_⟩
              rw [← hlen1, ← hof2, ← hc2.1]
              exact hc2.2
            rw [(hstate.1 hci).1]
            omega
          · rw [installSlot_fileAt_ne w2 nh.index fid i hc2,
                fileAt_congr hof2 i] at hne2 hsome2
            by_cases hc : i = nh.index ∧ i < w.openFiles.slots.length
            · rw [(hstate.1 hc).2] at hsome2
              simp at hsome2
            · rw [(hstate.2 hc).2] at hne2
              exact absurd rfl hne2

/-- The pool-mutating operations of the module, used to state process-
lifetime invariants over arbitrary operation sequences. -/
inductive VfsOp
  | opOpen (path : FsPath) (opts : OpenOptions)
  | opLock (vf : VirtualFile) (interf : List SlotHandle)
  | opVictim
  | opDrop (vf : VirtualFile)

/-- Effect of one operation on the world. -/
def applyOp (w : World) (op : VfsOp) : World :=
  match op with
  | .opOpen p o => (open_with_options p o w).2
  | .opLock vf interf => (lockFile vf interf w).2.2
  | .opVictim => (findVictimSlot w).2
  | .opDrop vf => dropVirtualFile vf w

theorem applyOp_tag_mono (w : World) (op : VfsOp) (i : Nat) :
    w.tagAt i ≤ (applyOp w op).tagAt i ∧
    ((applyOp w op).fileAt i ≠ w.fileAt i → ((applyOp w op).fileAt i).isSome →
      w.tagAt i < (applyOp w op).tagAt i) := by
  cases op with
  | opOpen p o => exact open_with_options_tag_mono p o w i
  | opLock vf interf => exact lockFile_tag_mono vf interf w i
  | opVictim =>
    refine ⟨findVictimSlot_tag_le w i, ?_⟩
    intro hne hsome
    unfold applyOp at hne hsome ⊢
    by_cases hc : i = ((findVictimSlot w).1).index ∧ i < w.openFiles.slots.length
    · rw [((findVictimSlot_state w i).1 hc).2] at hsome
      simp at hsome
    · rw [((findVictimSlot_state w i).2 hc).2] at hne
      exact absurd rfl hne
  | opDrop vf =>
    refine ⟨le_of_eq (cleanSlot_tagAt w vf.handle.index vf.handle.tag i).symm, ?_⟩
    intro hne hsome
    cases cleanSlot_fileAt w vf.handle.index vf.handle.tag i with
    | inl heq => exact absurd heq hne
    | inr hnone =>
      unfold applyOp dropVirtualFile at hsome
      unfold dropVirtualFile at hnone
      rw [hnone] at hsome
      simp at hsome

/-- Claim C6: for every slot, the tag is monotonically non-decreasing over
the process lifetime under every operation sequence (open, lock_file /
transparent reopen, find_victim_slot, drop cleanup), and whenever an
operation installs a different occupant in a slot, that slot's tag has
strictly increased — a tag value is never reassigned to a new occupant. -/
theorem slot_tags_monotone (ops : List VfsOp) (w : World) (i : Nat) :
    w.tagAt i ≤ (ops.foldl applyOp w).tagAt i ∧
    (∀ op, w.tagAt i ≤ (applyOp w op).tagAt i) ∧
    (∀ op, (applyOp w op).fileAt i ≠ w.fileAt i →
      ((applyOp w op).fileAt i).isSome →
      w.tagAt i < (applyOp w op).tagAt i) := by
  refine ⟨?_, fun op => (applyOp_tag_mono w op i).1,
    fun op => (applyOp_tag_mono w op i).2⟩
  induction ops generalizing w with
  | nil => exact le_refl _
  | cons op rest ih =>
    calc w.tagAt i ≤ (applyOp w op).tagAt i := (applyOp_tag_mono w op i).1
      _ ≤ (rest.foldl applyOp (applyOp w op)).tagAt i := ih (applyOp w op)

/-- Witness for C6: opening a file into a one-slot pool whose slot already
holds descriptor 7 at tag 3 replaces the occupant and strictly increases
the tag. -/
theorem slot_tags_monotone_witness :
    (applyOp (World.mk (OpenFiles.mk
        [{ inner := { tag := 3, file := some 7 }, recentlyUsed := false,
           lockedByOther := false }] 0) 8 none [] [Except.ok 0])
        (VfsOp.opOpen ["d", "f"] (OpenOptions.new.read true))).fileAt 0 ≠
      (World.mk (OpenFiles.mk
        [{ inner := { tag := 3, file := some 7 }, recentlyUsed := false,
           lockedByOther := false }] 0) 8 none [] [Except.ok 0]).fileAt 0 ∧
    (World.mk (OpenFiles.mk
        [{ inner := { tag := 3, file := some 7 }, recentlyUsed := false,
           lockedByOther := false }] 0) 8 none [] [Except.ok 0]).tagAt 0 <
      (applyOp (World.mk (OpenFiles.mk
        [{ inner := { tag := 3, file := some 7 }, recentlyUsed := false,
           lockedByOther := false }] 0) 8 none [] [Except.ok 0])
        (VfsOp.opOpen ["d", "f"] (OpenOptions.new.read true))).tagAt 0 :=
  ⟨by decide,
   (slot_tags_monotone [] (World.mk (OpenFiles.mk
        [{ inner := { tag := 3, file := some 7 }, recentlyUsed := false,
           lockedByOther := false }] 0) 8 none [] [Except.ok 0]) 0).2.2
     (VfsOp.opOpen ["d", "f"] (OpenOptions.new.read true))
     (by decide) (by decide)⟩

/-- The `lock_file` loop declares a hit only for a handle it has validated
against the slot (tag match and descriptor present). -/
theorem lockFileLoop_hit_valid (of : OpenFiles) :
    ∀ (interf : List SlotHandle) (h0 h : SlotHandle),
      lockFileLoop of h0 interf = .hitSlot h → slotValid of h = true := by
  intro interf
  induction interf with
  | nil =>
    intro h0 h hl
    unfold lockFileLoop at hl
    by_cases hv : slotValid of h0
    · rw [if_pos hv] at hl
      cases hl
      exact hv
    · rw [if_neg hv] at hl
      simp at hl
  | cons ih rest ihr =>
    intro h0 h hl
    unfold lockFileLoop at hl
    by_cases hv : slotValid of h0
    · rw [if_pos hv] at hl
      cases hl
      exact hv
    · rw [if_neg hv] at hl
      simp only at hl
      by_cases hih : ih = h0
      · rw [if_pos hih] at hl
        simp at hl
      · rw [if_neg hih] at hl
        exact ihr ih h hl

theorem findVictimSlot_scriptHead (w : World) :
    ((findVictimSlot w).2).scriptHead = w.scriptHead := by
  unfold World.scriptHead
  rw [findVictimSlot_script]

theorem sysOpen_events (ev : Ev) (w : World) :
    ((sysOpen ev w).2).events = w.events ++ [ev] := by
  unfold sysOpen
  cases h : w.scriptHead <;> simp [h, World.pop]

theorem sysOpen_error_head {ev : Ev} {w : World} {e : IoError} {w2 : World}
    (h : sysOpen ev w = (.error e, w2)) : w.scriptHead = .error e := by
  unfold sysOpen at h
  cases hh : w.scriptHead with
  | ok n => rw [hh] at h; simp at h
  | error e' =>
    rw [hh] at h
    simp only [Prod.mk.injEq] at h
    exact h.1

theorem sysOpen_ok_of_head {ev : Ev} {w : World} {k : Nat}
    (h : w.scriptHead = .ok k) :
    sysOpen ev w = (.ok w.nextFileId,
      { w.pop ev with nextFileId := w.nextFileId + 1 }) := by
  unfold sysOpen
  rw [h]

theorem setSlot_events (w : World) (i : Nat) (s : Slot) :
    (w.setSlot i s).events = w.events := rfl

/-- Claim C3: every operation that uses the cached slot reference
(`read_at`, `write_at`, `sync_all`, `metadata`, End-relative `seek`)
resolves its descriptor through `lock_file`, which validates the reference
before use: the reference is trusted only when the slot's tag equals the
cached tag and a descriptor is present; an invalid reference re-checks the
(possibly repaired) handle after the exclusive upgrade, reusing another
task's repair, and only a still-invalid handle acquires a victim slot and
reopens the file with the stored reopen options and path, updating the
cached reference.  Staleness itself is never surfaced as an error: a
`lock_file` error is the reopen syscall's own error. -/
theorem lock_file_validation (vf : VirtualFile) (interf : List SlotHandle)
    (w : World) :
    (∀ bufLen off, vf.read_at bufLen off interf w =
      (match lockFile vf interf w with
       | (.error e, vf1, w1) => (.error e, vf1, w1)
       | (.ok _h, vf1, w1) =>
         ((sysPRead bufLen w1).1, vf1, (sysPRead bufLen w1).2))) ∧
    (∀ bufLen off, vf.write_at bufLen off interf w =
      (match lockFile vf interf w with
       | (.error e, vf1, w1) => (.error e, vf1, w1)
       | (.ok _h, vf1, w1) =>
         ((sysPWrite bufLen w1).1, vf1, (sysPWrite bufLen w1).2))) ∧
    (vf.sync_all interf w =
      (match lockFile vf interf w with
       | (.error e, vf1, w1) => (.error e, vf1, w1)
       | (.ok _h, vf1, w1) => ((sysFsync w1).1, vf1, (sysFsync w1).2))) ∧
    (vf.metadata interf w =
      (match lockFile vf interf w with
       | (.error e, vf1, w1) => (.error e, vf1, w1)
       | (.ok _h, vf1, w1) => ((sysMetadata w1).1, vf1, (sysMetadata w1).2))) ∧
    (∀ n, vf.seek (.fromEnd n) interf w =
      (match lockFile vf interf w with
       | (.error e, vf1, w1) => (.error e, vf1, w1)
       | (.ok _h, vf1, w1) =>
         (match sysSeekEnd w1 with
          | (.error e, w2) => (.error e, vf1, w2)
          | (.ok p, w2) => (.ok p, { vf1 with pos := p }, w2)))) ∧
    (slotValid w.openFiles vf.handle = true →
      lockFile vf interf w =
        (.ok vf.handle, vf, w.markRecentlyUsed vf.handle.index)) ∧
    (∀ h, lockFileLoop w.openFiles vf.handle interf = .hitSlot h →
      slotValid w.openFiles h = true) ∧
    (slotValid w.openFiles vf.handle = false → ∀ ih rest, ih ≠ vf.handle →
      lockFile vf (ih :: rest) w = lockFile { vf with handle := ih } rest w) ∧
    (∀ h, lockFileLoop w.openFiles vf.handle interf = .missSlot h →
      ((lockFile vf interf w).2.2).events =
        ((findVictimSlot w).2).events ++
          [Ev.evOpenAfterReplace vf.path vf.open_options] ∧
      (0 < w.openFiles.slots.length → ∀ k, w.scriptHead = .ok k →
        (lockFile vf interf w).1 = .ok ((findVictimSlot w).1) ∧
        ((lockFile vf interf w).2.1).handle = (findVictimSlot w).1 ∧
        ((lockFile vf interf w).2.1).path = vf.path ∧
        ((lockFile vf interf w).2.1).open_options = vf.open_options ∧
        slotValid ((lockFile vf interf w).2.2).openFiles
          ((findVictimSlot w).1) = true)) ∧
    (∀ e vfx wx, lockFile vf interf w = (.error e, vfx, wx) →
      w.scriptHead = .error e) := by
  refine ⟨fun _ _ => rfl, fun _ _ => rfl, rfl, rfl, fun _ => rfl, ?_, ?_, ?_, ?_, ?_⟩
  · intro hv
    have hloop : lockFileLoop w.openFiles vf.handle interf = .hitSlot vf.handle := by
      unfold lockFileLoop
      rw [if_pos hv]
    unfold lockFile
    rw [hloop]
  · exact lockFileLoop_hit_valid w.openFiles interf vf.handle
  · intro hv ih rest hih
    have hstep : lockFileLoop w.openFiles vf.handle (ih :: rest) =
        lockFileLoop w.openFiles ih rest := by
      conv_lhs => rw [lockFileLoop]
      rw [if_neg (by rw [hv]; simp)]
      rw [if_neg hih]
    unfold lockFile
    rw [hstep]
  · intro h hmiss
    unfold lockFile
    rw [hmiss]
    simp only
    rcases hfv : findVictimSlot w with ⟨nh, w1⟩
    have hw1ev : w1.events = ((findVictimSlot w).2).events := by rw [hfv]
    have hw1sh : w1.scriptHead = w.scriptHead := by
      have hx := findVictimSlot_scriptHead w
      rw [hfv] at hx
      exact hx
    constructor
    · cases ho : sysOpen (Ev.evOpenAfterReplace vf.path vf.open_options) w1 with
      | mk r w2 =>
        have hev : w2.events = w1.events ++
            [Ev.evOpenAfterReplace vf.path vf.open_options] := by
          have hx := sysOpen_events (Ev.evOpenAfterReplace vf.path vf.open_options) w1
          rw [ho] at hx
          exact hx
        cases r with
        | error e =>
          simp only
          rw [hev, hw1ev]
        | ok fid =>
          simp only
          rw [setSlot_events, hev, hw1ev]
    · intro hlen k hk
      have hko := @sysOpen_ok_of_head
        (Ev.evOpenAfterReplace vf.path vf.open_options) w1 _
        (by rw [hw1sh]; exact hk)
      rw [hko]
      refine ⟨rfl, rfl, rfl, rfl, ?_⟩
      have hpost := find_victim_slot_postcondition w hlen
      rw [hfv] at hpost
      simp only at hpost
      obtain ⟨-, htagv, -, -, -, -, -, -, hidx⟩ := hpost
      have hl1 : w1.openFiles.slots.length = w.openFiles.slots.length := by
        have hx := findVictimSlot_length w
        rw [hfv] at hx
        exact hx
      show slotValid
        ((({ w1.pop (Ev.evOpenAfterReplace vf.path vf.open_options) with
              nextFileId := w1.nextFileId + 1 } : World).setSlot nh.index
          { ({ w1.pop (Ev.evOpenAfterReplace vf.path vf.open_options) with
              nextFileId := w1.nextFileId + 1 } : World).getSlot nh.index with
            inner := { (({ w1.pop (Ev.evOpenAfterReplace vf.path
                vf.open_options) with
              nextFileId := w1.nextFileId + 1 } : World).getSlot
                nh.index).inner with
              file := some w1.nextFileId } })).openFiles nh = true
      unfold slotValid World.setSlot
      simp only
      rw [getD_set, if_pos ⟨rfl, by
        show nh.index < w1.openFiles.slots.length
        rw [hl1]
        exact hidx⟩]
      have hwptag : (({ w1.pop (Ev.evOpenAfterReplace vf.path
          vf.open_options) with
          nextFileId := w1.nextFileId + 1 } : World).getSlot
            nh.index).inner.tag = w1.tagAt nh.index := rfl
      simp only [hwptag, ← htagv]
      simp
  · intro e vfx wx herr
    unfold lockFile at herr
    cases hl : lockFileLoop w.openFiles vf.handle interf with
    | hitSlot h =>
      rw [hl] at herr
      simp at herr
    | missSlot h =>
      rw [hl] at herr
      simp only at herr
      rcases hfv : findVictimSlot w with ⟨nh, w1⟩
      rw [hfv] at herr
      cases ho : sysOpen (Ev.evOpenAfterReplace vf.path vf.open_options) w1 with
      | mk r w2 =>
        rw [ho] at herr
        cases r with
        | ok fid => simp at herr
        | error e' =>
          simp only [Prod.mk.injEq, Except.error.injEq] at herr
          have hhead := sysOpen_error_head ho
          have hsh : w1.scriptHead = w.scriptHead := by
            have hx := findVictimSlot_scriptHead w
            rw [hfv] at hx
            exact hx
          rw [← hsh, hhead, herr.1]

/-- Witness for C3: a handle whose tag matches a descriptor-carrying slot
is validated and served from the cache. -/
theorem lock_file_validation_witness :
    slotValid (World.mk (OpenFiles.mk
        [{ inner := { tag := 2, file := some 5 }, recentlyUsed := false,
           lockedByOther := false }] 0) 6 none [] []).openFiles
      (VirtualFile.mk (SlotHandle.mk 0 2) 0 ["p"] OpenOptions.new).handle
      = true ∧
    lockFile (VirtualFile.mk (SlotHandle.mk 0 2) 0 ["p"] OpenOptions.new) []
      (World.mk (OpenFiles.mk
        [{ inner := { tag := 2, file := some 5 }, recentlyUsed := false,
           lockedByOther := false }] 0) 6 none [] []) =
      (.ok (VirtualFile.mk (SlotHandle.mk 0 2) 0 ["p"] OpenOptions.new).handle,
       VirtualFile.mk (SlotHandle.mk 0 2) 0 ["p"] OpenOptions.new,
       (World.mk (OpenFiles.mk
        [{ inner := { tag := 2, file := some 5 }, recentlyUsed := false,
           lockedByOther := false }] 0) 6 none [] []).markRecentlyUsed
         (VirtualFile.mk (SlotHandle.mk 0 2) 0 ["p"]
           OpenOptions.new).handle.index) :=
  ⟨by decide,
   (lock_file_validation (VirtualFile.mk (SlotHandle.mk 0 2) 0 ["p"]
       OpenOptions.new) []
     (World.mk (OpenFiles.mk
       [{ inner := { tag := 2, file := some 5 }, recentlyUsed := false,
          lockedByOther := false }] 0) 6 none [] [])).2.2.2.2.2.1 (by decide)⟩

/-- Claim C7: `seek(Start, n)` and `seek(Current, off)` are purely logical —
the world (events, script, pool) is untouched, so no syscall is issued.  A
`Current` target computed in unbounded integer arithmetic that is below
zero or above `u64::MAX` is rejected with an error and the stored position
is unchanged; a successful seek stores and returns the new position. -/
theorem seek_semantics (vf : VirtualFile) (interf : List SlotHandle)
    (w : World) :
    (∀ n, vf.seek (.start n) interf w = (.ok n, { vf with pos := n }, w)) ∧
    (∀ off : Int, (vf.pos : Int) + off < 0 →
      vf.seek (.current off) interf w =
        (.error { kind := .invalidInput, rawOsError := none,
                  msg := "offset would be negative" }, vf, w)) ∧
    (∀ off : Int, (u64Max : Int) < (vf.pos : Int) + off →
      vf.seek (.current off) interf w =
        (.error { kind := .invalidInput, rawOsError := none,
                  msg := "offset overflow" }, vf, w)) ∧
    (∀ off : Int, 0 ≤ (vf.pos : Int) + off →
      (vf.pos : Int) + off ≤ (u64Max : Int) →
      vf.seek (.current off) interf w =
        (.ok ((vf.pos : Int) + off).toNat,
         { vf with pos := ((vf.pos : Int) + off).toNat }, w)) := by
  have hmax : (0 : Int) ≤ (u64Max : Int) := Int.natCast_nonneg _
  refine ⟨fun n => rfl, ?_, ?_, ?_⟩
  · intro off hneg
    simp only [VirtualFile.seek]
    rw [if_pos hneg]
  · intro off hover
    simp only [VirtualFile.seek]
    rw [if_neg (by omega), if_pos hover]
  · intro off h0 h1
    simp only [VirtualFile.seek]
    rw [if_neg (by omega), if_neg (by omega)]

/-- Witness for C7: on a file positioned at 1 (as after `seek(Start, 1)` on
the 6-byte file of the spec's example), `seek(Current, -7)` is rejected and
the position stays 1; `seek(Current, 2)` succeeds with position 3. -/
theorem seek_semantics_witness :
    ((VirtualFile.mk (SlotHandle.mk 0 0) 1 ["f"] OpenOptions.new).pos : Int)
        + (-7) < 0 ∧
    (VirtualFile.mk (SlotHandle.mk 0 0) 1 ["f"] OpenOptions.new).seek
        (.current (-7)) [] (mkWorld 1 []) =
      (.error { kind := .invalidInput, rawOsError := none,
                msg := "offset would be negative" },
       VirtualFile.mk (SlotHandle.mk 0 0) 1 ["f"] OpenOptions.new,
       mkWorld 1 []) ∧
    (VirtualFile.mk (SlotHandle.mk 0 0) 1 ["f"] OpenOptions.new).seek
        (.current 2) [] (mkWorld 1 []) =
      (.ok 3,
       VirtualFile.mk (SlotHandle.mk 0 0) 3 ["f"] OpenOptions.new,
       mkWorld 1 []) :=
  ⟨by decide,
   (seek_semantics (VirtualFile.mk (SlotHandle.mk 0 0) 1 ["f"]
       OpenOptions.new) [] (mkWorld 1 [])).2.1 (-7) (by decide),
   (seek_semantics (VirtualFile.mk (SlotHandle.mk 0 0) 1 ["f"]
       OpenOptions.new) [] (mkWorld 1 [])).2.2.2 2 (by decide) (by decide)⟩

/-- Claim C8: `open_with_options` performs the initial physical open with
the full requested options (the open event carries them), and stores as the
handle's reopen options the requested options with the `create`,
`create_new` and `truncate` flags cleared and every other flag (read,
write, append, custom flags, mode) preserved. -/
theorem open_with_options_strips_reopen_flags (p : FsPath)
    (opts : OpenOptions) (w : World) :
    ((open_with_options p opts w).2).events =
      ((findVictimSlot w).2).events ++ [Ev.evOpen p opts] ∧
    (∀ k, w.scriptHead = .ok k →
      ∃ vf, (open_with_options p opts w).1 = .ok vf ∧
        vf.open_options =
          { opts with
            createFlag := false
            createNewFlag := false
            truncateFlag := false } ∧
        vf.open_options.readFlag = opts.readFlag ∧
        vf.open_options.writeFlag = opts.writeFlag ∧
        vf.open_options.appendFlag = opts.appendFlag ∧
        vf.open_options.customFlags = opts.customFlags ∧
        vf.open_options.modeBits = opts.modeBits ∧
        vf.open_options.createFlag = false ∧
        vf.open_options.createNewFlag = false ∧
        vf.open_options.truncateFlag = false ∧
        vf.path = p ∧ vf.pos = 0) := by
  unfold open_with_options
  rcases hfv : findVictimSlot w with ⟨h, w1⟩
  have hw1ev : w1.events = ((findVictimSlot w).2).events := by rw [hfv]
  have hw1sh : w1.scriptHead = w.scriptHead := by
    have hx := findVictimSlot_scriptHead w
    rw [hfv] at hx
    exact hx
  simp only
  constructor
  · cases ho : sysOpen (Ev.evOpen p opts) w1 with
    | mk r w2 =>
      have hev : w2.events = w1.events ++ [Ev.evOpen p opts] := by
        have hx := sysOpen_events (Ev.evOpen p opts) w1
        rw [ho] at hx
        exact hx
      cases r with
      | error e =>
        simp only
        rw [hev, hw1ev]
      | ok fid =>
        simp only
        rw [setSlot_events, hev, hw1ev]
  · intro k hk
    have hko := @sysOpen_ok_of_head (Ev.evOpen p opts) w1 _
      (by rw [hw1sh]; exact hk)
    rw [hko]
    exact ⟨_, rfl, rfl, rfl, rfl, rfl, rfl, rfl, rfl, rfl, rfl, rfl, rfl⟩

/-- Witness for C8: opening with read+write+create+create_new+truncate
yields a handle whose reopen options keep read and write but have all three
creation/truncation flags cleared. -/
theorem open_with_options_strips_reopen_flags_witness :
    (mkWorld 2 [Except.ok 0]).scriptHead = .ok 0 ∧
    ∃ vf, (open_with_options ["d", "f"]
        (((((OpenOptions.new.read true).write true).create true).create_new
          true).truncate true) (mkWorld 2 [Except.ok 0])).1 = .ok vf ∧
      vf.open_options =
        { (((((OpenOptions.new.read true).write true).create
            true).create_new true).truncate true) with
          createFlag := false
          createNewFlag := false
          truncateFlag := false } ∧
      vf.open_options.readFlag =
        (((((OpenOptions.new.read true).write true).create true).create_new
          true).truncate true).readFlag ∧
      vf.open_options.writeFlag =
        (((((OpenOptions.new.read true).write true).create true).create_new
          true).truncate true).writeFlag ∧
      vf.open_options.appendFlag =
        (((((OpenOptions.new.read true).write true).create true).create_new
          true).truncate true).appendFlag ∧
      vf.open_options.customFlags =
        (((((OpenOptions.new.read true).write true).create true).create_new
          true).truncate true).customFlags ∧
      vf.open_options.modeBits =
        (((((OpenOptions.new.read true).write true).create true).create_new
          true).truncate true).modeBits ∧
      vf.open_options.createFlag = false ∧
      vf.open_options.createNewFlag = false ∧
      vf.open_options.truncateFlag = false ∧
      vf.path = ["d", "f"] ∧ vf.pos = 0 :=
  ⟨rfl,
   (open_with_options_strips_reopen_flags ["d", "f"]
     (((((OpenOptions.new.read true).write true).create true).create_new
       true).truncate true) (mkWorld 2 [Except.ok 0])).2 0 rfl⟩

/-- A validated cached reference is served from the cache: `lock_file` only
marks the slot recently used. -/
theorem lockFile_valid_eq (vf : VirtualFile) (interf : List SlotHandle)
    (w : World) (hv : slotValid w.openFiles vf.handle = true) :
    lockFile vf interf w =
      (.ok vf.handle, vf, w.markRecentlyUsed vf.handle.index) := by
  have hloop : lockFileLoop w.openFiles vf.handle interf = .hitSlot vf.handle := by
    unfold lockFileLoop
    rw [if_pos hv]
  unfold lockFile
  rw [hloop]

theorem read_at_valid_eq {vf : VirtualFile} {w : World} (bufLen off : Nat)
    (interf : List SlotHandle) (hv : slotValid w.openFiles vf.handle = true) :
    vf.read_at bufLen off interf w =
      ((sysPRead bufLen (w.markRecentlyUsed vf.handle.index)).1, vf,
       (sysPRead bufLen (w.markRecentlyUsed vf.handle.index)).2) := by
  unfold VirtualFile.read_at
  rw [lockFile_valid_eq vf interf w hv]

theorem write_at_valid_eq {vf : VirtualFile} {w : World} (bufLen off : Nat)
    (interf : List SlotHandle) (hv : slotValid w.openFiles vf.handle = true) :
    vf.write_at bufLen off interf w =
      ((sysPWrite bufLen (w.markRecentlyUsed vf.handle.index)).1, vf,
       (sysPWrite bufLen (w.markRecentlyUsed vf.handle.index)).2) := by
  unfold VirtualFile.write_at
  rw [lockFile_valid_eq vf interf w hv]

theorem slotValid_markRecentlyUsed (w : World) (i : Nat) (h : SlotHandle) :
    slotValid (w.markRecentlyUsed i).openFiles h = slotValid w.openFiles h := by
  have hinner := markRecentlyUsed_inner w i h.index
  simp only [slotValid]
  rw [show ((w.markRecentlyUsed i).openFiles.slots.getD h.index default).inner
      = (w.openFiles.slots.getD h.index default).inner from hinner]

theorem sysPRead_openFiles (bufLen : Nat) (w : World) :
    ((sysPRead bufLen w).2).openFiles = w.openFiles := by
  unfold sysPRead
  cases h : w.scriptHead <;> simp [h, World.pop]

theorem sysPWrite_openFiles (bufLen : Nat) (w : World) :
    ((sysPWrite bufLen w).2).openFiles = w.openFiles := by
  unfold sysPWrite
  cases h : w.scriptHead <;> simp [h, World.pop]

theorem slotValid_congr {of1 of2 : OpenFiles} (h : of1 = of2)
    (hd : SlotHandle) : slotValid of1 hd = slotValid of2 hd := by rw [h]

theorem sysPRead_le {bufLen : Nat} {w : World} {m : Nat}
    (h : (sysPRead bufLen w).1 = .ok m) : m ≤ bufLen := by
  unfold sysPRead at h
  cases hh : w.scriptHead with
  | ok k =>
    rw [hh] at h
    simp only [Except.ok.injEq] at h
    rw [← h]
    exact Nat.min_le_right _ _
  | error e =>
    rw [hh] at h
    simp at h

theorem sysPWrite_le {bufLen : Nat} {w : World} {m : Nat}
    (h : (sysPWrite bufLen w).1 = .ok m) : m ≤ bufLen := by
  unfold sysPWrite at h
  cases hh : w.scriptHead with
  | ok k =>
    rw [hh] at h
    simp only [Except.ok.injEq] at h
    rw [← h]
    exact Nat.min_le_right _ _
  | error e =>
    rw [hh] at h
    simp at h

/-- On success, `read_exact_at` has advanced the offset by exactly the
requested byte count: the whole buffer was transferred. -/
theorem read_exact_at_success :
    ∀ (vf : VirtualFile) (rem off : Nat) (interf : List SlotHandle) (w : World),
      slotValid w.openFiles vf.handle = true →
      ∀ res vf1 off1 w1,
        read_exact_at vf rem off interf w = (res, vf1, off1, w1) →
        res = .ok () → off1 % 2 ^ 64 = (off + rem) % 2 ^ 64 := by
  intro vf0 rem0 off0 interf0 w0
  induction vf0, rem0, off0, interf0, w0 using read_exact_at.induct with
  | case1 vf off interf w =>
    intro hv res vf1 off1 w1 hres hok
    rw [read_exact_at, if_pos rfl] at hres
    cases hres
    simp
  | case2 vf rem off interf w hrem vf1 w1 hcall =>
    intro hv res vf2 off1 w2 hres hok
    have hstep : read_exact_at vf rem off interf w =
        (.error { kind := .unexpectedEof, rawOsError := none,
                  msg := "failed to fill whole buffer" }, vf1, off, w1) := by
      conv_lhs => rw [read_exact_at]
      rw [if_neg hrem]
      split
      · rename_i a b heq
        rw [hcall] at heq
        cases heq
        rfl
      · rename_i m a b heq
        rw [hcall] at heq
        simp at heq
      · rename_i e a b heq
        rw [hcall] at heq
        simp at heq
    rw [hstep] at hres
    cases hres
    simp at hok
  | case3 vf rem off interf w hrem n vf1 w1 hcall ih =>
    intro hv res vf2 off1 w2 hres hok
    have hre := @read_at_valid_eq vf w rem off interf hv
    rw [hcall] at hre
    simp only [Prod.mk.injEq] at hre
    obtain ⟨h1, h2, h3⟩ := hre
    have hvalid1 : slotValid w1.openFiles vf1.handle = true := by
      rw [h3, h2]
      calc slotValid ((sysPRead rem
            (w.markRecentlyUsed vf.handle.index)).2).openFiles vf.handle
          = slotValid
              (w.markRecentlyUsed vf.handle.index).openFiles vf.handle :=
            slotValid_congr
              (sysPRead_openFiles rem (w.markRecentlyUsed vf.handle.index)) _
        _ = slotValid w.openFiles vf.handle :=
            slotValid_markRecentlyUsed w vf.handle.index vf.handle
        _ = true := hv
    have hle : n + 1 ≤ rem := @sysPRead_le rem _ (n + 1)
      (by rw [← h1])
    have hstep : read_exact_at vf rem off interf w =
        read_exact_at vf1 (rem - (n + 1)) ((off + (n + 1)) % 2 ^ 64)
          interf w1 := by
      conv_lhs => rw [read_exact_at]
      rw [if_neg hrem]
      split
      · rename_i a b heq
        rw [hcall] at heq
        simp at heq
      · rename_i m a b heq
        rw [hcall] at heq
        simp only [Prod.mk.injEq, Except.ok.injEq] at heq
        obtain ⟨hm, ha, hb⟩ := heq
        subst ha
        subst hb
        have hnm : n = m := by omega
        subst hnm
        rfl
      · rename_i e a b heq
        rw [hcall] at heq
        simp at heq
    rw [hstep] at hres
    have hrec := ih hvalid1 res vf2 off1 w2 hres hok
    calc off1 % 2 ^ 64
        = ((off + (n + 1)) % 2 ^ 64 + (rem - (n + 1))) % 2 ^ 64 := hrec
      _ = (off + (n + 1) + (rem - (n + 1))) % 2 ^ 64 := by
          rw [Nat.mod_add_mod]
      _ = (off + rem) % 2 ^ 64 := by
          congr 1
          omega
  | case4 vf rem off interf w hrem e vf1 w1 hcall hkind ih =>
    intro hv res vf2 off1 w2 hres hok
    have hre := @read_at_valid_eq vf w rem off interf hv
    rw [hcall] at hre
    simp only [Prod.mk.injEq] at hre
    obtain ⟨h1, h2, h3⟩ := hre
    have hvalid1 : slotValid w1.openFiles vf1.handle = true := by
      rw [h3, h2]
      calc slotValid ((sysPRead rem
            (w.markRecentlyUsed vf.handle.index)).2).openFiles vf.handle
          = slotValid
              (w.markRecentlyUsed vf.handle.index).openFiles vf.handle :=
            slotValid_congr
              (sysPRead_openFiles rem (w.markRecentlyUsed vf.handle.index)) _
        _ = slotValid w.openFiles vf.handle :=
            slotValid_markRecentlyUsed w vf.handle.index vf.handle
        _ = true := hv
    have hstep : read_exact_at vf rem off interf w =
        read_exact_at vf1 rem off interf w1 := by
      conv_lhs => rw [read_exact_at]
      rw [if_neg hrem]
      split
      · rename_i a b heq
        rw [hcall] at heq
        simp at heq
      · rename_i m a b heq
        rw [hcall] at heq
        simp at heq
      · rename_i e2 a b heq
        rw [hcall] at heq
        simp only [Prod.mk.injEq, Except.error.injEq] at heq
        obtain ⟨hm, ha, hb⟩ := heq
        subst ha
        subst hb
        subst hm
        rw [if_pos hkind]
    rw [hstep] at hres
    exact ih hvalid1 res vf2 off1 w2 hres hok
  | case5 vf rem off interf w hrem e vf1 w1 hcall hkind =>
    intro hv res vf2 off1 w2 hres hok
    have hstep : read_exact_at vf rem off interf w =
        (.error e, vf1, off, w1) := by
      conv_lhs => rw [read_exact_at]
      rw [if_neg hrem]
      split
      · rename_i a b heq
        rw [hcall] at heq
        simp at heq
      · rename_i m a b heq
        rw [hcall] at heq
        simp at heq
      · rename_i e2 a b heq
        rw [hcall] at heq
        simp only [Prod.mk.injEq, Except.error.injEq] at heq
        obtain ⟨hm, ha, hb⟩ := heq
        subst ha
        subst hb
        subst hm
        rw [if_neg hkind]
    rw [hstep] at hres
    cases hres
    simp at hok

/-- On success, `write_all_at` has advanced the offset by exactly the
requested byte count: the whole buffer was transferred. -/
theorem write_all_at_success :
    ∀ (vf : VirtualFile) (rem off : Nat) (interf : List SlotHandle) (w : World),
      slotValid w.openFiles vf.handle = true →
      ∀ res vf1 off1 w1,
        write_all_at vf rem off interf w = (res, vf1, off1, w1) →
        res = .ok () → off1 % 2 ^ 64 = (off + rem) % 2 ^ 64 := by
  intro vf0 rem0 off0 interf0 w0
  induction vf0, rem0, off0, interf0, w0 using write_all_at.induct with
  | case1 vf off interf w =>
    intro hv res vf1 off1 w1 hres hok
    rw [write_all_at, if_pos rfl] at hres
    cases hres
    simp
  | case2 vf rem off interf w hrem vf1 w1 hcall =>
    intro hv res vf2 off1 w2 hres hok
    have hstep : write_all_at vf rem off interf w =
        (.error { kind := .writeZero, rawOsError := none,
                  msg := "failed to write whole buffer" }, vf1, off, w1) := by
      conv_lhs => rw [write_all_at]
      rw [if_neg hrem]
      split
      · rename_i a b heq
        rw [hcall] at heq
        cases heq
        rfl
      · rename_i m a b heq
        rw [hcall] at heq
        simp at heq
      · rename_i e a b heq
        rw [hcall] at heq
        simp at heq
    rw [hstep] at hres
    cases hres
    simp at hok
  | case3 vf rem off interf w hrem n vf1 w1 hcall ih =>
    intro hv res vf2 off1 w2 hres hok
    have hre := @write_at_valid_eq vf w rem off interf hv
    rw [hcall] at hre
    simp only [Prod.mk.injEq] at hre
    obtain ⟨h1, h2, h3⟩ := hre
    have hvalid1 : slotValid w1.openFiles vf1.handle = true := by
      rw [h3, h2]
      calc slotValid ((sysPWrite rem
            (w.markRecentlyUsed vf.handle.index)).2).openFiles vf.handle
          = slotValid
              (w.markRecentlyUsed vf.handle.index).openFiles vf.handle :=
            slotValid_congr
              (sysPWrite_openFiles rem (w.markRecentlyUsed vf.handle.index)) _
        _ = slotValid w.openFiles vf.handle :=
            slotValid_markRecentlyUsed w vf.handle.index vf.handle
        _ = true := hv
    have hle : n + 1 ≤ rem := @sysPWrite_le rem _ (n + 1)
      (by rw [← h1])
    have hstep : write_all_at vf rem off interf w =
        write_all_at vf1 (rem - (n + 1)) ((off + (n + 1)) % 2 ^ 64)
          interf w1 := by
      conv_lhs => rw [write_all_at]
      rw [if_neg hrem]
      split
      · rename_i a b heq
        rw [hcall] at heq
        simp at heq
      · rename_i m a b heq
        rw [hcall] at heq
        simp only [Prod.mk.injEq, Except.ok.injEq] at heq
        obtain ⟨hm, ha, hb⟩ := heq
        subst ha
        subst hb
        have hnm : n = m := by omega
        subst hnm
        rfl
      · rename_i e a b heq
        rw [hcall] at heq
        simp at heq
    rw [hstep] at hres
    have hrec := ih hvalid1 res vf2 off1 w2 hres hok
    calc off1 % 2 ^ 64
        = ((off + (n + 1)) % 2 ^ 64 + (rem - (n + 1))) % 2 ^ 64 := hrec
      _ = (off + (n + 1) + (rem - (n + 1))) % 2 ^ 64 := by
          rw [Nat.mod_add_mod]
      _ = (off + rem) % 2 ^ 64 := by
          congr 1
          omega
  | case4 vf rem off interf w hrem e vf1 w1 hcall hkind ih =>
    intro hv res vf2 off1 w2 hres hok
    have hre := @write_at_valid_eq vf w rem off interf hv
    rw [hcall] at hre
    simp only [Prod.mk.injEq] at hre
    obtain ⟨h1, h2, h3⟩ := hre
    have hvalid1 : slotValid w1.openFiles vf1.handle = true := by
      rw [h3, h2]
      calc slotValid ((sysPWrite rem
            (w.markRecentlyUsed vf.handle.index)).2).openFiles vf.handle
          = slotValid
              (w.markRecentlyUsed vf.handle.index).openFiles vf.handle :=
            slotValid_congr
              (sysPWrite_openFiles rem (w.markRecentlyUsed vf.handle.index)) _
        _ = slotValid w.openFiles vf.handle :=
            slotValid_markRecentlyUsed w vf.handle.index vf.handle
        _ = true := hv
    have hstep : write_all_at vf rem off interf w =
        write_all_at vf1 rem off interf w1 := by
      conv_lhs => rw [write_all_at]
      rw [if_neg hrem]
      split
      · rename_i a b heq
        rw [hcall] at heq
        simp at heq
      · rename_i m a b heq
        rw [hcall] at heq
        simp at heq
      · rename_i e2 a b heq
        rw [hcall] at heq
        simp only [Prod.mk.injEq, Except.error.injEq] at heq
        obtain ⟨hm, ha, hb⟩ := heq
        subst ha
        subst hb
        subst hm
        rw [if_pos hkind]
    rw [hstep] at hres
    exact ih hvalid1 res vf2 off1 w2 hres hok
  | case5 vf rem off interf w hrem e vf1 w1 hcall hkind =>
    intro hv res vf2 off1 w2 hres hok
    have hstep : write_all_at vf rem off interf w =
        (.error e, vf1, off, w1) := by
      conv_lhs => rw [write_all_at]
      rw [if_neg hrem]
      split
      · rename_i a b heq
        rw [hcall] at heq
        simp at heq
      · rename_i m a b heq
        rw [hcall] at heq
        simp at heq
      · rename_i e2 a b heq
        rw [hcall] at heq
        simp only [Prod.mk.injEq, Except.error.injEq] at heq
        obtain ⟨hm, ha, hb⟩ := heq
        subst ha
        subst hb
        subst hm
        rw [if_neg hkind]
    rw [hstep] at hres
    cases hres
    simp at hok

/-- `VirtualFile.write` under a validated cached reference: a scripted
positional write at the logical cursor, advancing the cursor on success. -/
theorem write_valid_eq {vf : VirtualFile} {w : World} (bufLen : Nat)
    (interf : List SlotHandle) (hv : slotValid w.openFiles vf.handle = true) :
    vf.write bufLen interf w =
      (match (sysPWrite bufLen (w.markRecentlyUsed vf.handle.index)).1 with
       | .error e => ((Except.error e : Except IoError Nat), vf,
           (sysPWrite bufLen (w.markRecentlyUsed vf.handle.index)).2)
       | .ok n => (.ok n, { vf with pos := (vf.pos + n) % 2 ^ 64 },
           (sysPWrite bufLen (w.markRecentlyUsed vf.handle.index)).2)) := by
  unfold VirtualFile.write
  rw [write_at_valid_eq bufLen vf.pos interf hv]
  cases hx : (sysPWrite bufLen (w.markRecentlyUsed vf.handle.index)).1 <;> rfl

/-- On success, `write_all` has advanced the logical cursor by exactly the
number of bytes written — the whole buffer. -/
theorem write_all_success :
    ∀ (vf : VirtualFile) (rem : Nat) (interf : List SlotHandle) (w : World),
      slotValid w.openFiles vf.handle = true →
      ∀ res vf1 w1,
        write_all vf rem interf w = (res, vf1, w1) →
        res = .ok () → vf1.pos % 2 ^ 64 = (vf.pos + rem) % 2 ^ 64 := by
  intro vf0 rem0 interf0 w0
  induction vf0, rem0, interf0, w0 using write_all.induct with
  | case1 vf interf w =>
    intro hv res vf1 w1 hres hok
    rw [write_all, if_pos rfl] at hres
    cases hres
    simp
  | case2 vf rem interf w hrem vf1 w1 hcall =>
    intro hv res vf2 w2 hres hok
    have hstep : write_all vf rem interf w =
        (.error { kind := .writeZero, rawOsError := none,
                  msg := "failed to write whole buffer" }, vf1, w1) := by
      conv_lhs => rw [write_all]
      rw [if_neg hrem]
      split
      · rename_i a b heq
        rw [hcall] at heq
        cases heq
        rfl
      · rename_i m a b heq
        rw [hcall] at heq
        simp at heq
      · rename_i e a b heq
        rw [hcall] at heq
        simp at heq
    rw [hstep] at hres
    cases hres
    simp at hok
  | case3 vf rem interf w hrem n vf1 w1 hcall ih =>
    intro hv res vf2 w2 hres hok
    have hre := @write_valid_eq vf w rem interf hv
    rw [hcall] at hre
    cases hx : (sysPWrite rem (w.markRecentlyUsed vf.handle.index)).1 with
    | error e =>
      rw [hx] at hre
      simp at hre
    | ok k =>
      rw [hx] at hre
      simp only [Prod.mk.injEq, Except.ok.injEq] at hre
      obtain ⟨h1, h2, h3⟩ := hre
      have hvalid1 : slotValid w1.openFiles vf1.handle = true := by
        rw [h3, h2]
        calc slotValid ((sysPWrite rem
              (w.markRecentlyUsed vf.handle.index)).2).openFiles vf.handle
            = slotValid
                (w.markRecentlyUsed vf.handle.index).openFiles vf.handle :=
              slotValid_congr
                (sysPWrite_openFiles rem (w.markRecentlyUsed vf.handle.index)) _
          _ = slotValid w.openFiles vf.handle :=
              slotValid_markRecentlyUsed w vf.handle.index vf.handle
          _ = true := hv
      have hle : n + 1 ≤ rem := by
        have hk := @sysPWrite_le rem _ k hx
        omega
      have hpos1 : vf1.pos = (vf.pos + (n + 1)) % 2 ^ 64 := by
        rw [h2]
        show (vf.pos + k) % 2 ^ 64 = (vf.pos + (n + 1)) % 2 ^ 64
        rw [← h1]
      have hstep : write_all vf rem interf w =
          write_all vf1 (rem - (n + 1)) interf w1 := by
        conv_lhs => rw [write_all]
        rw [if_neg hrem]
        split
        · rename_i a b heq
          rw [hcall] at heq
          simp at heq
        · rename_i m a b heq
          rw [hcall] at heq
          simp only [Prod.mk.injEq, Except.ok.injEq] at heq
          obtain ⟨hm, ha, hb⟩ := heq
          subst ha
          subst hb
          have hnm : n = m := by omega
          subst hnm
          rfl
        · rename_i e a b heq
          rw [hcall] at heq
          simp at heq
      rw [hstep] at hres
      have hrec := ih hvalid1 res vf2 w2 hres hok
      calc vf2.pos % 2 ^ 64
          = (vf1.pos + (rem - (n + 1))) % 2 ^ 64 := hrec
        _ = ((vf.pos + (n + 1)) % 2 ^ 64 + (rem - (n + 1))) % 2 ^ 64 := by
            rw [hpos1]
        _ = (vf.pos + (n + 1) + (rem - (n + 1))) % 2 ^ 64 := by
            rw [Nat.mod_add_mod]
        _ = (vf.pos + rem) % 2 ^ 64 := by
            congr 1
            omega
  | case4 vf rem interf w hrem e vf1 w1 hcall hkind ih =>
    intro hv res vf2 w2 hres hok
    have hre := @write_valid_eq vf w rem interf hv
    rw [hcall] at hre
    cases hx : (sysPWrite rem (w.markRecentlyUsed vf.handle.index)).1 with
    | ok k =>
      rw [hx] at hre
      simp at hre
    | error e2 =>
      rw [hx] at hre
      simp only [Prod.mk.injEq, Except.error.injEq] at hre
      obtain ⟨h1, h2, h3⟩ := hre
      have hvalid1 : slotValid w1.openFiles vf1.handle = true := by
        rw [h3, h2]
        calc slotValid ((sysPWrite rem
              (w.markRecentlyUsed vf.handle.index)).2).openFiles vf.handle
            = slotValid
                (w.markRecentlyUsed vf.handle.index).openFiles vf.handle :=
              slotValid_congr
                (sysPWrite_openFiles rem (w.markRecentlyUsed vf.handle.index)) _
          _ = slotValid w.openFiles vf.handle :=
              slotValid_markRecentlyUsed w vf.handle.index vf.handle
          _ = true := hv
      have hpos1 : vf1.pos = vf.pos := by rw [h2]
      have hstep : write_all vf rem interf w =
          write_all vf1 rem interf w1 := by
        conv_lhs => rw [write_all]
        rw [if_neg hrem]
        split
        · rename_i a b heq
          rw [hcall] at heq
          simp at heq
        · rename_i m a b heq
          rw [hcall] at heq
          simp at heq
        · rename_i e3 a b heq
          rw [hcall] at heq
          simp only [Prod.mk.injEq, Except.error.injEq] at heq
          obtain ⟨hm, ha, hb⟩ := heq
          subst ha
          subst hb
          subst hm
          rw [if_pos hkind]
      rw [hstep] at hres
      have hrec := ih hvalid1 res vf2 w2 hres hok
      rw [hrec, hpos1]
  | case5 vf rem interf w hrem e vf1 w1 hcall hkind =>
    intro hv res vf2 w2 hres hok
    have hstep : write_all vf rem interf w = (.error e, vf1, w1) := by
      conv_lhs => rw [write_all]
      rw [if_neg hrem]
      split
      · rename_i a b heq
        rw [hcall] at heq
        simp at heq
      · rename_i m a b heq
        rw [hcall] at heq
        simp at heq
      · rename_i e2 a b heq
        rw [hcall] at heq
        simp only [Prod.mk.injEq, Except.error.injEq] at heq
        obtain ⟨hm, ha, hb⟩ := heq
        subst ha
        subst hb
        subst hm
        rw [if_neg hkind]
    rw [hstep] at hres
    cases hres
    simp at hok

/-- One unfolding step of the `read_exact_at` loop, as a function of the
`read_at` outcome. -/
theorem read_exact_at_eq_of_call {vf : VirtualFile} {rem off : Nat}
    {interf : List SlotHandle} {w : World} {r : Except IoError Nat}
    {vf1 : VirtualFile} {w1 : World} (hrem : rem ≠ 0)
    (hcall : vf.read_at rem off interf w = (r, vf1, w1)) :
    read_exact_at vf rem off interf w =
      (match r with
       | .ok 0 =>
         (.error { kind := .unexpectedEof, rawOsError := none, msg := "failed to fill whole buffer" }, vf1, off, w1)
       | .ok (n + 1) =>
         read_exact_at vf1 (rem - (n + 1)) ((off + (n + 1)) % 2 ^ 64) interf w1
       | .error e =>
         if e.kind = .interrupted then read_exact_at vf1 rem off interf w1
         else (.error e, vf1, off, w1)) := by
  conv_lhs => rw [read_exact_at]
  rw [if_neg hrem]
  split
  · rename_i a b heq
    rw [hcall] at heq
    simp only [Prod.mk.injEq] at heq
    obtain ⟨hr, ha, hb⟩ := heq
    subst hr
    subst ha
    subst hb
    rfl
  · rename_i m a b heq
    rw [hcall] at heq
    simp only [Prod.mk.injEq] at heq
    obtain ⟨hr, ha, hb⟩ := heq
    subst hr
    subst ha
    subst hb
    rfl
  · rename_i e a b heq
    rw [hcall] at heq
    simp only [Prod.mk.injEq] at heq
    obtain ⟨hr, ha, hb⟩ := heq
    subst hr
    subst ha
    subst hb
    rfl

/-- One unfolding step of the `write_all_at` loop. -/
theorem write_all_at_eq_of_call {vf : VirtualFile} {rem off : Nat}
    {interf : List SlotHandle} {w : World} {r : Except IoError Nat}
    {vf1 : VirtualFile} {w1 : World} (hrem : rem ≠ 0)
    (hcall : vf.write_at rem off interf w = (r, vf1, w1)) :
    write_all_at vf rem off interf w =
      (match r with
       | .ok 0 =>
         (.error { kind := .writeZero, rawOsError := none, msg := "failed to write whole buffer" }, vf1, off, w1)
       | .ok (n + 1) =>
         write_all_at vf1 (rem - (n + 1)) ((off + (n + 1)) % 2 ^ 64) interf w1
       | .error e =>
         if e.kind = .interrupted then write_all_at vf1 rem off interf w1
         else (.error e, vf1, off, w1)) := by
  conv_lhs => rw [write_all_at]
  rw [if_neg hrem]
  split
  · rename_i a b heq
    rw [hcall] at heq
    simp only [Prod.mk.injEq] at heq
    obtain ⟨hr, ha, hb⟩ := heq
    subst hr
    subst ha
    subst hb
    rfl
  · rename_i m a b heq
    rw [hcall] at heq
    simp only [Prod.mk.injEq] at heq
    obtain ⟨hr, ha, hb⟩ := heq
    subst hr
    subst ha
    subst hb
    rfl
  · rename_i e a b heq
    rw [hcall] at heq
    simp only [Prod.mk.injEq] at heq
    obtain ⟨hr, ha, hb⟩ := heq
    subst hr
    subst ha
    subst hb
    rfl

/-- Claim C9: `read_exact_at` and `write_all_at` loop `read_at`/`write_at`
over the remaining buffer: an `Interrupted` error is retried without
consuming progress (same remainder and offset); zero progress yields
`UnexpectedEof` for reads and `WriteZero` for writes; any other error is
propagated; and on success the whole buffer has been transferred (the
offset advanced by exactly the requested length).  The sequential
`write_all` additionally advances the logical cursor by exactly the number
of bytes written. -/
theorem rw_retry_loops (vf : VirtualFile) (rem off : Nat)
    (interf : List SlotHandle) (w : World)
    (hv : slotValid w.openFiles vf.handle = true) :
    (∀ res vf1 off1 w1,
      read_exact_at vf rem off interf w = (res, vf1, off1, w1) →
      res = .ok () → off1 % 2 ^ 64 = (off + rem) % 2 ^ 64) ∧
    (∀ e rest, rem ≠ 0 → w.script = .error e :: rest →
      e.kind = .interrupted →
      read_exact_at vf rem off interf w =
        read_exact_at vf rem off interf
          ((w.markRecentlyUsed vf.handle.index).pop (Ev.evRead 0))) ∧
    (rem ≠ 0 → w.scriptHead = .ok 0 →
      (read_exact_at vf rem off interf w).1 =
        .error { kind := .unexpectedEof, rawOsError := none,
                 msg := "failed to fill whole buffer" }) ∧
    (∀ e rest, rem ≠ 0 → w.script = .error e :: rest →
      e.kind ≠ .interrupted →
      (read_exact_at vf rem off interf w).1 = .error e) ∧
    (∀ res vf1 off1 w1,
      write_all_at vf rem off interf w = (res, vf1, off1, w1) →
      res = .ok () → off1 % 2 ^ 64 = (off + rem) % 2 ^ 64) ∧
    (∀ e rest, rem ≠ 0 → w.script = .error e :: rest →
      e.kind = .interrupted →
      write_all_at vf rem off interf w =
        write_all_at vf rem off interf
          ((w.markRecentlyUsed vf.handle.index).pop (Ev.evWrite 0))) ∧
    (rem ≠ 0 → w.scriptHead = .ok 0 →
      (write_all_at vf rem off interf w).1 =
        .error { kind := .writeZero, rawOsError := none,
                 msg := "failed to write whole buffer" }) ∧
    (∀ e rest, rem ≠ 0 → w.script = .error e :: rest →
      e.kind ≠ .interrupted →
      (write_all_at vf rem off interf w).1 = .error e) ∧
    (∀ res vf1 w1, write_all vf rem interf w = (res, vf1, w1) →
      res = .ok () → vf1.pos % 2 ^ 64 = (vf.pos + rem) % 2 ^ 64) := by
  refine ⟨read_exact_at_success vf rem off interf w hv, ?_, ?_, ?_,
    write_all_at_success vf rem off interf w hv, ?_, ?_, ?_,
    write_all_success vf rem interf w hv⟩
  · intro e rest hrem hs hk
    have hhead : (w.markRecentlyUsed vf.handle.index).scriptHead = .error e := by
      unfold World.scriptHead
      rw [markRecentlyUsed_script, hs]
      rfl
    have hsys : sysPRead rem (w.markRecentlyUsed vf.handle.index) =
        (.error e, (w.markRecentlyUsed vf.handle.index).pop (Ev.evRead 0)) := by
      unfold sysPRead
      rw [hhead]
    have hcall : vf.read_at rem off interf w =
        (.error e, vf,
         (w.markRecentlyUsed vf.handle.index).pop (Ev.evRead 0)) := by
      rw [read_at_valid_eq rem off interf hv, hsys]
    rw [read_exact_at_eq_of_call hrem hcall]
    simp only
    rw [if_pos hk]
  · intro hrem hhead0
    have hhead : (w.markRecentlyUsed vf.handle.index).scriptHead = .ok 0 := by
      unfold World.scriptHead at hhead0 ⊢
      rw [markRecentlyUsed_script]
      exact hhead0
    have hsys : sysPRead rem (w.markRecentlyUsed vf.handle.index) =
        (.ok 0, (w.markRecentlyUsed vf.handle.index).pop (Ev.evRead 0)) := by
      unfold sysPRead
      rw [hhead]
      simp [Nat.zero_min]
    have hcall : vf.read_at rem off interf w =
        (.ok 0, vf,
         (w.markRecentlyUsed vf.handle.index).pop (Ev.evRead 0)) := by
      rw [read_at_valid_eq rem off interf hv, hsys]
    rw [read_exact_at_eq_of_call hrem hcall]
  · intro e rest hrem hs hk
    have hhead : (w.markRecentlyUsed vf.handle.index).scriptHead = .error e := by
      unfold World.scriptHead
      rw [markRecentlyUsed_script, hs]
      rfl
    have hsys : sysPRead rem (w.markRecentlyUsed vf.handle.index) =
        (.error e, (w.markRecentlyUsed vf.handle.index).pop (Ev.evRead 0)) := by
      unfold sysPRead
      rw [hhead]
    have hcall : vf.read_at rem off interf w =
        (.error e, vf,
         (w.markRecentlyUsed vf.handle.index).pop (Ev.evRead 0)) := by
      rw [read_at_valid_eq rem off interf hv, hsys]
    rw [read_exact_at_eq_of_call hrem hcall]
    simp only
    rw [if_neg hk]
  · intro e rest hrem hs hk
    have hhead : (w.markRecentlyUsed vf.handle.index).scriptHead = .error e := by
      unfold World.scriptHead
      rw [markRecentlyUsed_script, hs]
      rfl
    have hsys : sysPWrite rem (w.markRecentlyUsed vf.handle.index) =
        (.error e, (w.markRecentlyUsed vf.handle.index).pop (Ev.evWrite 0)) := by
      unfold sysPWrite
      rw [hhead]
    have hcall : vf.write_at rem off interf w =
        (.error e, vf,
         (w.markRecentlyUsed vf.handle.index).pop (Ev.evWrite 0)) := by
      rw [write_at_valid_eq rem off interf hv, hsys]
    rw [write_all_at_eq_of_call hrem hcall]
    simp only
    rw [if_pos hk]
  · intro hrem hhead0
    have hhead : (w.markRecentlyUsed vf.handle.index).scriptHead = .ok 0 := by
      unfold World.scriptHead at hhead0 ⊢
      rw [markRecentlyUsed_script]
      exact hhead0
    have hsys : sysPWrite rem (w.markRecentlyUsed vf.handle.index) =
        (.ok 0, (w.markRecentlyUsed vf.handle.index).pop (Ev.evWrite 0)) := by
      unfold sysPWrite
      rw [hhead]
      simp [Nat.zero_min]
    have hcall : vf.write_at rem off interf w =
        (.ok 0, vf,
         (w.markRecentlyUsed vf.handle.index).pop (Ev.evWrite 0)) := by
      rw [write_at_valid_eq rem off interf hv, hsys]
    rw [write_all_at_eq_of_call hrem hcall]
  · intro e rest hrem hs hk
    have hhead : (w.markRecentlyUsed vf.handle.index).scriptHead = .error e := by
      unfold World.scriptHead
      rw [markRecentlyUsed_script, hs]
      rfl
    have hsys : sysPWrite rem (w.markRecentlyUsed vf.handle.index) =
        (.error e, (w.markRecentlyUsed vf.handle.index).pop (Ev.evWrite 0)) := by
      unfold sysPWrite
      rw [hhead]
    have hcall : vf.write_at rem off interf w =
        (.error e, vf,
         (w.markRecentlyUsed vf.handle.index).pop (Ev.evWrite 0)) := by
      rw [write_at_valid_eq rem off interf hv, hsys]
    rw [write_all_at_eq_of_call hrem hcall]
    simp only
    rw [if_neg hk]

/-- One unfolding step of the `write_all` loop. -/
theorem write_all_eq_of_call {vf : VirtualFile} {rem : Nat}
    {interf : List SlotHandle} {w : World} {r : Except IoError Nat}
    {vf1 : VirtualFile} {w1 : World} (hrem : rem ≠ 0)
    (hcall : vf.write rem interf w = (r, vf1, w1)) :
    write_all vf rem interf w =
      (match r with
       | .ok 0 =>
         (.error { kind := .writeZero, rawOsError := none, msg := "failed to write whole buffer" }, vf1, w1)
       | .ok (n + 1) => write_all vf1 (rem - (n + 1)) interf w1
       | .error e =>
         if e.kind = .interrupted then write_all vf1 rem interf w1
         else (.error e, vf1, w1)) := by
  conv_lhs => rw [write_all]
  rw [if_neg hrem]
  split
  · rename_i a b heq
    rw [hcall] at heq
    simp only [Prod.mk.injEq] at heq
    obtain ⟨hr, ha, hb⟩ := heq
    subst hr
    subst ha
    subst hb
    rfl
  · rename_i m a b heq
    rw [hcall] at heq
    simp only [Prod.mk.injEq] at heq
    obtain ⟨hr, ha, hb⟩ := heq
    subst hr
    subst ha
    subst hb
    rfl
  · rename_i e a b heq
    rw [hcall] at heq
    simp only [Prod.mk.injEq] at heq
    obtain ⟨hr, ha, hb⟩ := heq
    subst hr
    subst ha
    subst hb
    rfl

/-- Witness for C9 on a one-slot pool with a valid handle: a 3-byte
`write_all` that the OS serves in one write advances the cursor from 0 to
3, and an interrupted read is retried on the remaining script without
consuming progress. -/
theorem rw_retry_loops_witness :
    slotValid (World.mk (OpenFiles.mk
        [{ inner := { tag := 1, file := some 4 }, recentlyUsed := false,
           lockedByOther := false }] 0) 5 none [] [Except.ok 3]).openFiles
      (VirtualFile.mk (SlotHandle.mk 0 1) 0 ["f"] OpenOptions.new).handle
      = true ∧
    ((write_all (VirtualFile.mk (SlotHandle.mk 0 1) 0 ["f"] OpenOptions.new)
        3 [] (World.mk (OpenFiles.mk
        [{ inner := { tag := 1, file := some 4 }, recentlyUsed := false,
           lockedByOther := false }] 0) 5 none []
          [Except.ok 3])).2.1).pos % 2 ^ 64 =
      ((VirtualFile.mk (SlotHandle.mk 0 1) 0 ["f"] OpenOptions.new).pos + 3)
        % 2 ^ 64 ∧
    read_exact_at (VirtualFile.mk (SlotHandle.mk 0 1) 0 ["f"]
        OpenOptions.new) 3 10 []
      (World.mk (OpenFiles.mk
        [{ inner := { tag := 1, file := some 4 }, recentlyUsed := false,
           lockedByOther := false }] 0) 5 none []
        [Except.error { kind := .interrupted, rawOsError := none, msg := "" }]) =
      read_exact_at (VirtualFile.mk (SlotHandle.mk 0 1) 0 ["f"]
          OpenOptions.new) 3 10 []
        (((World.mk (OpenFiles.mk
          [{ inner := { tag := 1, file := some 4 }, recentlyUsed := false,
             lockedByOther := false }] 0) 5 none []
          [Except.error { kind := .interrupted, rawOsError := none, msg := "" }]).markRecentlyUsed 0).pop
          (Ev.evRead 0)) := by
  refine ⟨by decide, ?_, ?_⟩
  · have hcall : (VirtualFile.mk (SlotHandle.mk 0 1) 0 ["f"]
        OpenOptions.new).write 3 []
        (World.mk (OpenFiles.mk
          [{ inner := { tag := 1, file := some 4 }, recentlyUsed := false,
             lockedByOther := false }] 0) 5 none [] [Except.ok 3]) =
        (.ok 3, VirtualFile.mk (SlotHandle.mk 0 1) 3 ["f"] OpenOptions.new,
         World.mk (OpenFiles.mk
           [{ inner := { tag := 1, file := some 4 }, recentlyUsed := true,
              lockedByOther := false }] 0) 5 none [Ev.evWrite 3] []) := by
      rw [write_valid_eq 3 [] (by decide)]
      rfl
    have hres : write_all (VirtualFile.mk (SlotHandle.mk 0 1) 0 ["f"]
        OpenOptions.new) 3 []
        (World.mk (OpenFiles.mk
          [{ inner := { tag := 1, file := some 4 }, recentlyUsed := false,
             lockedByOther := false }] 0) 5 none [] [Except.ok 3]) =
        (.ok (), VirtualFile.mk (SlotHandle.mk 0 1) 3 ["f"] OpenOptions.new,
         World.mk (OpenFiles.mk
           [{ inner := { tag := 1, file := some 4 }, recentlyUsed := true,
              lockedByOther := false }] 0) 5 none [Ev.evWrite 3] []) := by
      conv_lhs => rw [write_all]
      rw [if_neg (by omega)]
      split
      · rename_i a b heq
        rw [hcall] at heq
        simp at heq
      · rename_i m a b heq
        rw [hcall] at heq
        simp only [Prod.mk.injEq, Except.ok.injEq] at heq
        obtain ⟨hm, ha, hb⟩ := heq
        subst ha
        subst hb
        have hm2 : m = 2 := by omega
        subst hm2
        rw [write_all]
        norm_num
      · rename_i e a b heq
        rw [hcall] at heq
        simp at heq
    have happ := (rw_retry_loops (VirtualFile.mk (SlotHandle.mk 0 1) 0 ["f"]
        OpenOptions.new) 3 0 []
      (World.mk (OpenFiles.mk
        [{ inner := { tag := 1, file := some 4 }, recentlyUsed := false,
           lockedByOther := false }] 0) 5 none [] [Except.ok 3])
      (by decide)).2.2.2.2.2.2.2.2
      (.ok ()) (VirtualFile.mk (SlotHandle.mk 0 1) 3 ["f"] OpenOptions.new)
      (World.mk (OpenFiles.mk
        [{ inner := { tag := 1, file := some 4 }, recentlyUsed := true,
           lockedByOther := false }] 0) 5 none [Ev.evWrite 3] []) hres rfl
    calc ((write_all (VirtualFile.mk (SlotHandle.mk 0 1) 0 ["f"]
            OpenOptions.new) 3 [] (World.mk (OpenFiles.mk
            [{ inner := { tag := 1, file := some 4 }, recentlyUsed := false,
               lockedByOther := false }] 0) 5 none []
            [Except.ok 3])).2.1).pos % 2 ^ 64
        = (VirtualFile.mk (SlotHandle.mk 0 1) 3 ["f"]
            OpenOptions.new).pos % 2 ^ 64 := by rw [hres]
      _ = ((VirtualFile.mk (SlotHandle.mk 0 1) 0 ["f"]
            OpenOptions.new).pos + 3) % 2 ^ 64 := happ
  · exact (rw_retry_loops (VirtualFile.mk (SlotHandle.mk 0 1) 0 ["f"]
        OpenOptions.new) 3 10 []
      (World.mk (OpenFiles.mk
        [{ inner := { tag := 1, file := some 4 }, recentlyUsed := false,
           lockedByOther := false }] 0) 5 none []
        [Except.error { kind := .interrupted, rawOsError := none, msg := "" }])
      (by decide)).2.1
      { kind := .interrupted, rawOsError := none, msg := "" } []
      (by omega) rfl rfl

theorem cleanSlot_script (w : World) (idx tag : Nat) :
    (cleanSlot w idx tag).script = w.script := by
  simp only [cleanSlot]
  split
  · split <;> rfl
  · rfl

/-- Claim C10: `remove` consumes the handle (its slot is released by the
drop cleanup first) and then deletes the file; it never returns an error —
any deletion failure, including a not-found error, is a panic. -/
theorem remove_never_errors (vf : VirtualFile) (w : World) :
    ((vf.remove w).1 = .finished ∨ (vf.remove w).1 = .panicked) ∧
    ((vf.remove w).1 = .panicked ↔ ∃ e, w.scriptHead = .error e) ∧
    (∀ e, w.scriptHead = .error e → e.kind = .notFound →
      (vf.remove w).1 = .panicked) ∧
    ((vf.remove w).2.events =
      (dropVirtualFile vf w).events ++ [Ev.evRemoveFile vf.path]) := by
  have hscript : (dropVirtualFile vf w).script = w.script :=
    cleanSlot_script w vf.handle.index vf.handle.tag
  have hsh : (dropVirtualFile vf w).scriptHead = w.scriptHead := by
    unfold World.scriptHead
    rw [hscript]
  simp only [VirtualFile.remove]
  cases hh : w.scriptHead with
  | ok n =>
    have hrm : sysRemoveFile vf.path (dropVirtualFile vf w) =
        (.ok (), (dropVirtualFile vf w).pop (Ev.evRemoveFile vf.path)) := by
      unfold sysRemoveFile
      rw [hsh, hh]
    rw [hrm]
    refine ⟨Or.inl rfl, ?_, ?_, rfl⟩
    · constructor
      · intro hpan
        simp at hpan
      · rintro ⟨e, he⟩
        simp at he
    · intro e he
      simp at he
  | error e0 =>
    have hrm : sysRemoveFile vf.path (dropVirtualFile vf w) =
        (.error e0, (dropVirtualFile vf w).pop (Ev.evRemoveFile vf.path)) := by
      unfold sysRemoveFile
      rw [hsh, hh]
    rw [hrm]
    refine ⟨Or.inr rfl, ?_, ?_, rfl⟩
    · exact ⟨fun _ => ⟨e0, rfl⟩, fun _ => rfl⟩
    · intro e he hk
      rfl

/-- Witness for C10: deleting a file that does not exist (`NotFound` from
the OS) makes `remove` panic rather than return an error. -/
theorem remove_never_errors_witness :
    (World.mk (OpenFiles.mk
        [{ inner := { tag := 1, file := some 4 }, recentlyUsed := false,
           lockedByOther := false }] 0) 5 none []
        [Except.error { kind := .notFound, rawOsError := some 2, msg := "" }]).scriptHead =
      .error { kind := .notFound, rawOsError := some 2, msg := "" } ∧
    ((VirtualFile.mk (SlotHandle.mk 0 1) 0 ["f"] OpenOptions.new).remove
      (World.mk (OpenFiles.mk
        [{ inner := { tag := 1, file := some 4 }, recentlyUsed := false,
           lockedByOther := false }] 0) 5 none []
        [Except.error { kind := .notFound, rawOsError := some 2, msg := "" }])).1 = .panicked :=
  ⟨rfl,
   (remove_never_errors (VirtualFile.mk (SlotHandle.mk 0 1) 0 ["f"]
       OpenOptions.new)
     (World.mk (OpenFiles.mk
       [{ inner := { tag := 1, file := some 4 }, recentlyUsed := false,
          lockedByOther := false }] 0) 5 none []
       [Except.error { kind := .notFound, rawOsError := some 2, msg := "" }])).2.2.1
     { kind := .notFound, rawOsError := some 2, msg := "" } rfl rfl⟩

/-- The options `crashsafe_overwrite` opens the temp file with:
`OpenOptions::new().write(true).create_new(true)`. -/
def cowOptsW : OpenOptions := ((OpenOptions.new).write true).create_new true

/-- The options `crashsafe_overwrite` opens the parent directory with:
`OpenOptions::new().read(true)`. -/
def cowOptsR : OpenOptions := (OpenOptions.new).read true

/-- An unlocked slot with the given tag, occupant and recently-used
flag. -/
def cowSlot (t : Nat) (f : Option FileId) (ru : Bool) : Slot :=
  { inner := { tag := t, file := f }, recentlyUsed := ru, lockedByOther := false }

/-- The temp-file handle `crashsafe_overwrite` holds in a fresh 2-slot
world after the exclusive-create open: slot 0, first tag bump, cursor at
0, reopen options stripped of create/create_new/truncate. -/
def cowFile (tmp : FsPath) : VirtualFile :=
  { handle := { index := 0, tag := 1 }, pos := 0, path := tmp,
    open_options := ((cowOptsW.create false).create_new false).truncate false }

/-- The world reached by `crashsafe_overwrite` (fresh 2-slot start) just
before the content write: the temp file installed in slot 0 and the remove
and open already observed; `rest` is the not-yet-consumed script. -/
def cowW2 (tmp : FsPath) (rest : List (Except IoError Nat)) : World :=
  { openFiles := { slots := [cowSlot 1 (some 0) true, Slot.empty], next := 1 },
    nextFileId := 1, held := none,
    events := [Ev.evRemoveFile tmp, Ev.evOpen tmp cowOptsW], script := rest }

/-- The exact syscall sequence of a fully successful
`crashsafe_overwrite(final, tmp, content)`: remove tmp, exclusive-create
open of tmp, one full write, fsync, close (before the rename), rename,
open of the parent directory, parent fsync, close of the directory
handle. -/
def okEvents (final tmp par : FsPath) (L : Nat) : List Ev :=
  [Ev.evRemoveFile tmp, Ev.evOpen tmp cowOptsW, Ev.evWrite L, Ev.evFsync,
   Ev.evClose, Ev.evRename tmp final, Ev.evOpen par cowOptsR, Ev.evFsync,
   Ev.evClose]

/-- The final world of a fully successful `crashsafe_overwrite` from a
fresh 2-slot world: both handles dropped again, the full event sequence
observed, the script completely consumed. -/
def WOK (final tmp par : FsPath) (L : Nat) : World :=
  { openFiles := { slots := [cowSlot 1 none false, cowSlot 1 none false],
                   next := 2 },
    nextFileId := 2, held := none,
    events := okEvents final tmp par L, script := [] }

/-- `write_all` when the OS accepts the whole buffer in one call: one
write observation of the full length and the cursor advanced by it. -/
theorem write_all_single (vf : VirtualFile) (L : Nat) (interf : List SlotHandle)
    (w : World) (rest : List (Except IoError Nat))
    (hv : slotValid w.openFiles vf.handle = true)
    (hs : w.script = .ok L :: rest) (hL : L ≠ 0) :
    write_all vf L interf w =
      (.ok (), { vf with pos := (vf.pos + L) % 2 ^ 64 },
       (w.markRecentlyUsed vf.handle.index).pop (Ev.evWrite L)) := by
  have hhead : (w.markRecentlyUsed vf.handle.index).scriptHead = .ok L := by
    unfold World.scriptHead
    rw [markRecentlyUsed_script, hs]
    rfl
  have hsys : sysPWrite L (w.markRecentlyUsed vf.handle.index) =
      (.ok L, (w.markRecentlyUsed vf.handle.index).pop (Ev.evWrite L)) := by
    unfold sysPWrite
    rw [hhead]
    simp [Nat.min_self]
  have hcall : vf.write L interf w =
      (.ok L, { vf with pos := (vf.pos + L) % 2 ^ 64 },
       (w.markRecentlyUsed vf.handle.index).pop (Ev.evWrite L)) := by
    rw [write_valid_eq L interf hv, hsys]
  conv_lhs => rw [write_all]
  rw [if_neg hL]
  split
  · rename_i a b heq
    rw [hcall] at heq
    simp only [Prod.mk.injEq, Except.ok.injEq] at heq
    exact absurd heq.1 hL
  · rename_i m a b heq
    rw [hcall] at heq
    simp only [Prod.mk.injEq, Except.ok.injEq] at heq
    obtain ⟨hm, ha, hb⟩ := heq
    subst ha
    subst hb
    have h0 : L - (m + 1) = 0 := by omega
    rw [h0, write_all]
    norm_num
  · rename_i e a b heq
    rw [hcall] at heq
    simp at heq





set_option maxHeartbeats 1000000 in
/-- `crashsafe_overwrite` from a fresh 2-slot world, factored through the
state just before the content write: remove and exclusive-create open both
succeed and the run continues with `write_all` from `cowW2`. -/
theorem cow_start (final tmp par : FsPath) (L : Nat)
    (rest : List (Except IoError Nat)) (hpar : parentPath final = some par) :
    crashsafe_overwrite final tmp L (mkWorld 2 (.ok 0 :: .ok 0 :: rest)) =
      (match write_all (cowFile tmp) L [] (cowW2 tmp rest) with
       | (.error e, file1, w3) => (.error e, dropVirtualFile file1 w3)
       | (.ok _, file1, w3) => afterWrite final tmp par file1 w3) := by
  rw [crashsafe_overwrite, hpar]
  rfl

set_option maxHeartbeats 4000000 in
/-- The tail of a successful run: full write, fsync, close, rename,
parent open, parent fsync, close of the directory handle. -/
theorem cow_tail_ok (final tmp par : FsPath) (L : Nat) (hL : L ≠ 0) :
    (match write_all (cowFile tmp) L []
        (cowW2 tmp [.ok L, .ok 0, .ok 0, .ok 0, .ok 0]) with
     | (.error e, file1, w3) => (.error e, dropVirtualFile file1 w3)
     | (.ok _, file1, w3) => afterWrite final tmp par file1 w3) =
      (.ok (), WOK final tmp par L) := by
  have hw : write_all (cowFile tmp) L []
      (cowW2 tmp [.ok L, .ok 0, .ok 0, .ok 0, .ok 0]) =
      (.ok (), { handle := { index := 0, tag := 1 }, pos := (0 + L) % 2 ^ 64,
                 path := tmp,
                 open_options := ((cowOptsW.create false).create_new false).truncate false },
       { openFiles := { slots := [cowSlot 1 (some 0) true, Slot.empty], next := 1 },
         nextFileId := 1, held := none,
         events := [Ev.evRemoveFile tmp, Ev.evOpen tmp cowOptsW, Ev.evWrite L],
         script := [.ok 0, .ok 0, .ok 0, .ok 0] }) := by
    rw [write_all_single (cowFile tmp) L []
      (cowW2 tmp [.ok L, .ok 0, .ok 0, .ok 0, .ok 0])
      [.ok 0, .ok 0, .ok 0, .ok 0] rfl rfl hL]
    rfl
  rw [hw]
  rfl

/-- `write_all` when the first write fails with a non-`Interrupted`
error: the error propagates after a single zero-byte write observation,
the cursor unmoved. -/
theorem write_all_err (vf : VirtualFile) (L : Nat) (interf : List SlotHandle)
    (w : World) (e : IoError) (rest : List (Except IoError Nat))
    (hv : slotValid w.openFiles vf.handle = true)
    (hs : w.script = .error e :: rest) (hL : L ≠ 0)
    (he : e.kind ≠ IoErrorKind.interrupted) :
    write_all vf L interf w =
      (.error e, vf, (w.markRecentlyUsed vf.handle.index).pop (Ev.evWrite 0)) := by
  have hhead : (w.markRecentlyUsed vf.handle.index).scriptHead = .error e := by
    unfold World.scriptHead
    rw [markRecentlyUsed_script, hs]
    rfl
  have hsys : sysPWrite L (w.markRecentlyUsed vf.handle.index) =
      (.error e, (w.markRecentlyUsed vf.handle.index).pop (Ev.evWrite 0)) := by
    unfold sysPWrite
    rw [hhead]
  have hcall : vf.write L interf w =
      (.error e, vf, (w.markRecentlyUsed vf.handle.index).pop (Ev.evWrite 0)) := by
    rw [write_valid_eq L interf hv, hsys]
  conv_lhs => rw [write_all]
  rw [if_neg hL]
  split
  · rename_i a b heq
    rw [hcall] at heq
    simp at heq
  · rename_i m a b heq
    rw [hcall] at heq
    simp at heq
  · rename_i e2 a b heq
    rw [hcall] at heq
    simp only [Prod.mk.injEq, Except.error.injEq] at heq
    obtain ⟨hee, ha, hb⟩ := heq
    subst hee
    subst ha
    subst hb
    rw [if_neg he]

/-- A final path without a parent fails with `EINVAL` before any
syscall. -/
theorem cow_no_parent (tmp : FsPath) (L : Nat) (w : World) :
    crashsafe_overwrite [] tmp L w =
      (.error { kind := .invalidInput, rawOsError := some errnoEINVAL,
                msg := "" }, w) := by
  rw [crashsafe_overwrite]
  rfl

set_option maxHeartbeats 1000000 in
/-- Same as `cow_start` when the initial remove fails with `NotFound`:
`ignore_not_found` converts it to success and the run proceeds
identically. -/
theorem cow_start_nf (final tmp par : FsPath) (L : Nat) (e : IoError)
    (rest : List (Except IoError Nat)) (hpar : parentPath final = some par)
    (he : e.kind = IoErrorKind.notFound) :
    crashsafe_overwrite final tmp L (mkWorld 2 (.error e :: .ok 0 :: rest)) =
      (match write_all (cowFile tmp) L [] (cowW2 tmp rest) with
       | (.error e, file1, w3) => (.error e, dropVirtualFile file1 w3)
       | (.ok _, file1, w3) => afterWrite final tmp par file1 w3) := by
  obtain ⟨k, raw, msg⟩ := e
  have hk : k = IoErrorKind.notFound := he
  subst hk
  rw [crashsafe_overwrite, hpar]
  rfl

set_option maxHeartbeats 1000000 in
/-- A remove failure other than `NotFound` stops the sequence right
after the remove observation. -/
theorem cow_remove_err (final tmp par : FsPath) (L : Nat) (e : IoError)
    (rest : List (Except IoError Nat)) (hpar : parentPath final = some par)
    (he : e.kind ≠ IoErrorKind.notFound) :
    crashsafe_overwrite final tmp L (mkWorld 2 (.error e :: rest)) =
      (.error e,
       { openFiles := { slots := [Slot.empty, Slot.empty], next := 0 },
         nextFileId := 0, held := none, events := [Ev.evRemoveFile tmp],
         script := rest }) := by
  obtain ⟨k, raw, msg⟩ := e
  have hk : k ≠ IoErrorKind.notFound := he
  rw [crashsafe_overwrite, hpar]
  cases k
  · exact absurd rfl hk
  · rfl
  · rfl
  · rfl
  · rfl
  · rfl

set_option maxHeartbeats 1000000 in
/-- An exclusive-create open failure propagates with only the remove and
open observed (the victim slot keeps its bumped tag, no descriptor
installed). -/
theorem cow_open_err (final tmp par : FsPath) (L : Nat) (e : IoError)
    (rest : List (Except IoError Nat)) (hpar : parentPath final = some par) :
    crashsafe_overwrite final tmp L (mkWorld 2 (.ok 0 :: .error e :: rest)) =
      (.error e,
       { openFiles := { slots := [cowSlot 1 none true, Slot.empty], next := 1 },
         nextFileId := 0, held := none,
         events := [Ev.evRemoveFile tmp, Ev.evOpen tmp cowOptsW],
         script := rest }) := by
  rw [crashsafe_overwrite, hpar]
  rfl

set_option maxHeartbeats 1000000 in
/-- A non-`Interrupted` write failure propagates; the temp-file handle
is dropped (close observed) and nothing after the write runs. -/
theorem cow_tail_write_err (final tmp par : FsPath) (L : Nat) (e : IoError)
    (rest : List (Except IoError Nat)) (hL : L ≠ 0)
    (he : e.kind ≠ IoErrorKind.interrupted) :
    (match write_all (cowFile tmp) L [] (cowW2 tmp (.error e :: rest)) with
     | (.error e, file1, w3) => (.error e, dropVirtualFile file1 w3)
     | (.ok _, file1, w3) => afterWrite final tmp par file1 w3) =
      (.error e,
       { openFiles := { slots := [cowSlot 1 none false, Slot.empty], next := 1 },
         nextFileId := 1, held := none,
         events := [Ev.evRemoveFile tmp, Ev.evOpen tmp cowOptsW, Ev.evWrite 0,
                    Ev.evClose],
         script := rest }) := by
  have hw : write_all (cowFile tmp) L [] (cowW2 tmp (.error e :: rest)) =
      (.error e, cowFile tmp,
       { openFiles := { slots := [cowSlot 1 (some 0) true, Slot.empty], next := 1 },
         nextFileId := 1, held := none,
         events := [Ev.evRemoveFile tmp, Ev.evOpen tmp cowOptsW, Ev.evWrite 0],
         script := rest }) := by
    rw [write_all_err (cowFile tmp) L [] (cowW2 tmp (.error e :: rest)) e rest
      rfl rfl hL he]
    rfl
  rw [hw]
  rfl

set_option maxHeartbeats 4000000 in
/-- An fsync failure after the full write propagates; the handle is
dropped and the rename never happens. -/
theorem cow_tail_fsync_err (final tmp par : FsPath) (L : Nat) (e : IoError)
    (rest : List (Except IoError Nat)) (hL : L ≠ 0) :
    (match write_all (cowFile tmp) L [] (cowW2 tmp (.ok L :: .error e :: rest)) with
     | (.error e, file1, w3) => (.error e, dropVirtualFile file1 w3)
     | (.ok _, file1, w3) => afterWrite final tmp par file1 w3) =
      (.error e,
       { openFiles := { slots := [cowSlot 1 none false, Slot.empty], next := 1 },
         nextFileId := 1, held := none,
         events := [Ev.evRemoveFile tmp, Ev.evOpen tmp cowOptsW, Ev.evWrite L,
                    Ev.evFsync, Ev.evClose],
         script := rest }) := by
  have hw : write_all (cowFile tmp) L [] (cowW2 tmp (.ok L :: .error e :: rest)) =
      (.ok (), { handle := { index := 0, tag := 1 }, pos := (0 + L) % 2 ^ 64,
                 path := tmp,
                 open_options := ((cowOptsW.create false).create_new false).truncate false },
       { openFiles := { slots := [cowSlot 1 (some 0) true, Slot.empty], next := 1 },
         nextFileId := 1, held := none,
         events := [Ev.evRemoveFile tmp, Ev.evOpen tmp cowOptsW, Ev.evWrite L],
         script := .error e :: rest }) := by
    rw [write_all_single (cowFile tmp) L []
      (cowW2 tmp (.ok L :: .error e :: rest)) (.error e :: rest) rfl rfl hL]
    rfl
  rw [hw]
  rfl

set_option maxHeartbeats 4000000 in
/-- A rename failure propagates, after the temp-file close (the release
precedes the rename) and before any parent-directory syscall. -/
theorem cow_tail_rename_err (final tmp par : FsPath) (L : Nat) (e : IoError)
    (rest : List (Except IoError Nat)) (hL : L ≠ 0) :
    (match write_all (cowFile tmp) L []
        (cowW2 tmp (.ok L :: .ok 0 :: .error e :: rest)) with
     | (.error e, file1, w3) => (.error e, dropVirtualFile file1 w3)
     | (.ok _, file1, w3) => afterWrite final tmp par file1 w3) =
      (.error e,
       { openFiles := { slots := [cowSlot 1 none false, Slot.empty], next := 1 },
         nextFileId := 1, held := none,
         events := [Ev.evRemoveFile tmp, Ev.evOpen tmp cowOptsW, Ev.evWrite L,
                    Ev.evFsync, Ev.evClose, Ev.evRename tmp final],
         script := rest }) := by
  have hw : write_all (cowFile tmp) L []
      (cowW2 tmp (.ok L :: .ok 0 :: .error e :: rest)) =
      (.ok (), { handle := { index := 0, tag := 1 }, pos := (0 + L) % 2 ^ 64,
                 path := tmp,
                 open_options := ((cowOptsW.create false).create_new false).truncate false },
       { openFiles := { slots := [cowSlot 1 (some 0) true, Slot.empty], next := 1 },
         nextFileId := 1, held := none,
         events := [Ev.evRemoveFile tmp, Ev.evOpen tmp cowOptsW, Ev.evWrite L],
         script := .ok 0 :: .error e :: rest }) := by
    rw [write_all_single (cowFile tmp) L []
      (cowW2 tmp (.ok L :: .ok 0 :: .error e :: rest)) (.ok 0 :: .error e :: rest)
      rfl rfl hL]
    rfl
  rw [hw]
  rfl

set_option maxHeartbeats 4000000 in
/-- A parent-directory open failure propagates after the rename. -/
theorem cow_tail_popen_err (final tmp par : FsPath) (L : Nat) (e : IoError)
    (rest : List (Except IoError Nat)) (hL : L ≠ 0) :
    (match write_all (cowFile tmp) L []
        (cowW2 tmp (.ok L :: .ok 0 :: .ok 0 :: .error e :: rest)) with
     | (.error e, file1, w3) => (.error e, dropVirtualFile file1 w3)
     | (.ok _, file1, w3) => afterWrite final tmp par file1 w3) =
      (.error e,
       { openFiles := { slots := [cowSlot 1 none false, cowSlot 1 none true],
                        next := 2 },
         nextFileId := 1, held := none,
         events := [Ev.evRemoveFile tmp, Ev.evOpen tmp cowOptsW, Ev.evWrite L,
                    Ev.evFsync, Ev.evClose, Ev.evRename tmp final,
                    Ev.evOpen par cowOptsR],
         script := rest }) := by
  have hw : write_all (cowFile tmp) L []
      (cowW2 tmp (.ok L :: .ok 0 :: .ok 0 :: .error e :: rest)) =
      (.ok (), { handle := { index := 0, tag := 1 }, pos := (0 + L) % 2 ^ 64,
                 path := tmp,
                 open_options := ((cowOptsW.create false).create_new false).truncate false },
       { openFiles := { slots := [cowSlot 1 (some 0) true, Slot.empty], next := 1 },
         nextFileId := 1, held := none,
         events := [Ev.evRemoveFile tmp, Ev.evOpen tmp cowOptsW, Ev.evWrite L],
         script := .ok 0 :: .ok 0 :: .error e :: rest }) := by
    rw [write_all_single (cowFile tmp) L []
      (cowW2 tmp (.ok L :: .ok 0 :: .ok 0 :: .error e :: rest))
      (.ok 0 :: .ok 0 :: .error e :: rest) rfl rfl hL]
    rfl
  rw [hw]
  rfl

set_option maxHeartbeats 4000000 in
/-- A parent-directory fsync failure propagates as the very last
possible error; every syscall of the sequence has been observed. -/
theorem cow_tail_pfsync_err (final tmp par : FsPath) (L : Nat) (e : IoError)
    (rest : List (Except IoError Nat)) (hL : L ≠ 0) :
    (match write_all (cowFile tmp) L []
        (cowW2 tmp (.ok L :: .ok 0 :: .ok 0 :: .ok 0 :: .error e :: rest)) with
     | (.error e, file1, w3) => (.error e, dropVirtualFile file1 w3)
     | (.ok _, file1, w3) => afterWrite final tmp par file1 w3) =
      (.error e,
       { openFiles := { slots := [cowSlot 1 none false, cowSlot 1 none false],
                        next := 2 },
         nextFileId := 2, held := none,
         events := okEvents final tmp par L,
         script := rest }) := by
  have hw : write_all (cowFile tmp) L []
      (cowW2 tmp (.ok L :: .ok 0 :: .ok 0 :: .ok 0 :: .error e :: rest)) =
      (.ok (), { handle := { index := 0, tag := 1 }, pos := (0 + L) % 2 ^ 64,
                 path := tmp,
                 open_options := ((cowOptsW.create false).create_new false).truncate false },
       { openFiles := { slots := [cowSlot 1 (some 0) true, Slot.empty], next := 1 },
         nextFileId := 1, held := none,
         events := [Ev.evRemoveFile tmp, Ev.evOpen tmp cowOptsW, Ev.evWrite L],
         script := .ok 0 :: .ok 0 :: .ok 0 :: .error e :: rest }) := by
    rw [write_all_single (cowFile tmp) L []
      (cowW2 tmp (.ok L :: .ok 0 :: .ok 0 :: .ok 0 :: .error e :: rest))
      (.ok 0 :: .ok 0 :: .ok 0 :: .error e :: rest) rfl rfl hL]
    rfl
  rw [hw]
  rfl

/-- Claim C1: `crashsafe_overwrite(final_path, tmp_path, content)` performs
exactly the sequence remove-tmp (a `NotFound` error counting as success),
exclusive-create open of tmp, full content write, fsync, handle release
(close) before the rename, rename tmp to final, open of final's parent
directory, parent fsync — and propagates the first error.  Stated over a
fresh 2-slot world: (1) a parentless final path fails with `EINVAL` before
any I/O; (2) the all-success run produces exactly the event sequence and
consumes the whole script; (3) a `NotFound` remove error is treated as
success and the run proceeds identically; (4) any other remove error stops
the sequence right after the remove; (5)–(9) an error injected at the
open, write, fsync, rename, parent-open or parent-fsync step propagates,
with exactly the events up to and including the failing step (plus the
close of the still-open temp-file handle where one is held, and — write
case — the zero-byte write observation). -/
theorem crashsafe_overwrite_sequence (final tmp par : FsPath) (L : Nat)
    (e : IoError) (rest : List (Except IoError Nat)) (w : World)
    (hpar : parentPath final = some par) (hL : L ≠ 0) :
    crashsafe_overwrite [] tmp L w =
      (.error { kind := .invalidInput, rawOsError := some errnoEINVAL,
                msg := "" }, w) ∧
    crashsafe_overwrite final tmp L (mkWorld 2
        [.ok 0, .ok 0, .ok L, .ok 0, .ok 0, .ok 0, .ok 0]) =
      (.ok (), WOK final tmp par L) ∧
    (e.kind = IoErrorKind.notFound →
      crashsafe_overwrite final tmp L (mkWorld 2
          [.error e, .ok 0, .ok L, .ok 0, .ok 0, .ok 0, .ok 0]) =
        (.ok (), WOK final tmp par L)) ∧
    (e.kind ≠ IoErrorKind.notFound →
      crashsafe_overwrite final tmp L (mkWorld 2 (.error e :: rest)) =
        (.error e,
         { openFiles := { slots := [Slot.empty, Slot.empty], next := 0 },
           nextFileId := 0, held := none, events := [Ev.evRemoveFile tmp],
           script := rest })) ∧
    crashsafe_overwrite final tmp L (mkWorld 2 (.ok 0 :: .error e :: rest)) =
      (.error e,
       { openFiles := { slots := [cowSlot 1 none true, Slot.empty], next := 1 },
         nextFileId := 0, held := none,
         events := [Ev.evRemoveFile tmp, Ev.evOpen tmp cowOptsW],
         script := rest }) ∧
    (e.kind ≠ IoErrorKind.interrupted →
      crashsafe_overwrite final tmp L (mkWorld 2
          (.ok 0 :: .ok 0 :: .error e :: rest)) =
        (.error e,
         { openFiles := { slots := [cowSlot 1 none false, Slot.empty], next := 1 },
           nextFileId := 1, held := none,
           events := [Ev.evRemoveFile tmp, Ev.evOpen tmp cowOptsW, Ev.evWrite 0,
                      Ev.evClose],
           script := rest })) ∧
    crashsafe_overwrite final tmp L (mkWorld 2
        (.ok 0 :: .ok 0 :: .ok L :: .error e :: rest)) =
      (.error e,
       { openFiles := { slots := [cowSlot 1 none false, Slot.empty], next := 1 },
         nextFileId := 1, held := none,
         events := [Ev.evRemoveFile tmp, Ev.evOpen tmp cowOptsW, Ev.evWrite L,
                    Ev.evFsync, Ev.evClose],
         script := rest }) ∧
    crashsafe_overwrite final tmp L (mkWorld 2
        (.ok 0 :: .ok 0 :: .ok L :: .ok 0 :: .error e :: rest)) =
      (.error e,
       { openFiles := { slots := [cowSlot 1 none false, Slot.empty], next := 1 },
         nextFileId := 1, held := none,
         events := [Ev.evRemoveFile tmp, Ev.evOpen tmp cowOptsW, Ev.evWrite L,
                    Ev.evFsync, Ev.evClose, Ev.evRename tmp final],
         script := rest }) ∧
    crashsafe_overwrite final tmp L (mkWorld 2
        (.ok 0 :: .ok 0 :: .ok L :: .ok 0 :: .ok 0 :: .error e :: rest)) =
      (.error e,
       { openFiles := { slots := [cowSlot 1 none false, cowSlot 1 none true],
                        next := 2 },
         nextFileId := 1, held := none,
         events := [Ev.evRemoveFile tmp, Ev.evOpen tmp cowOptsW, Ev.evWrite L,
                    Ev.evFsync, Ev.evClose, Ev.evRename tmp final,
                    Ev.evOpen par cowOptsR],
         script := rest }) ∧
    crashsafe_overwrite final tmp L (mkWorld 2
        (.ok 0 :: .ok 0 :: .ok L :: .ok 0 :: .ok 0 :: .ok 0 :: .error e :: rest)) =
      (.error e,
       { openFiles := { slots := [cowSlot 1 none false, cowSlot 1 none false],
                        next := 2 },
         nextFileId := 2, held := none,
         events := okEvents final tmp par L,
         script := rest }) := by
  refine ⟨cow_no_parent tmp L w, ?_, ?_, ?_, ?_, ?_, ?_, ?_, ?_, ?_⟩
  · exact (cow_start final tmp par L [.ok L, .ok 0, .ok 0, .ok 0, .ok 0]
      hpar).trans (cow_tail_ok final tmp par L hL)
  · intro he
    exact (cow_start_nf final tmp par L e [.ok L, .ok 0, .ok 0, .ok 0, .ok 0]
      hpar he).trans (cow_tail_ok final tmp par L hL)
  · intro he
    exact cow_remove_err final tmp par L e rest hpar he
  · exact cow_open_err final tmp par L e rest hpar
  · intro he
    exact (cow_start final tmp par L (.error e :: rest) hpar).trans
      (cow_tail_write_err final tmp par L e rest hL he)
  · exact (cow_start final tmp par L (.ok L :: .error e :: rest) hpar).trans
      (cow_tail_fsync_err final tmp par L e rest hL)
  · exact (cow_start final tmp par L (.ok L :: .ok 0 :: .error e :: rest)
      hpar).trans (cow_tail_rename_err final tmp par L e rest hL)
  · exact (cow_start final tmp par L
      (.ok L :: .ok 0 :: .ok 0 :: .error e :: rest) hpar).trans
      (cow_tail_popen_err final tmp par L e rest hL)
  · exact (cow_start final tmp par L
      (.ok L :: .ok 0 :: .ok 0 :: .ok 0 :: .error e :: rest) hpar).trans
      (cow_tail_pfsync_err final tmp par L e rest hL)

/-- Concrete instantiation of the `crashsafe_overwrite` sequence theorem:
paths with a real parent, a three-byte payload, a `NotFound` remove error
for the treated-as-success clause and a plain I/O error for the
stops-after-remove clause. -/
theorem crashsafe_overwrite_sequence_witness :
    (parentPath ["d", "f"] = some ["d"] ∧ (3 : Nat) ≠ 0) ∧
    crashsafe_overwrite ["d", "f"] ["t"] 3 (mkWorld 2
        [.ok 0, .ok 0, .ok 3, .ok 0, .ok 0, .ok 0, .ok 0]) =
      (.ok (), WOK ["d", "f"] ["t"] ["d"] 3) ∧
    crashsafe_overwrite ["d", "f"] ["t"] 3 (mkWorld 2
        [.error { kind := .notFound, rawOsError := some 2, msg := "" },
         .ok 0, .ok 3, .ok 0, .ok 0, .ok 0, .ok 0]) =
      (.ok (), WOK ["d", "f"] ["t"] ["d"] 3) ∧
    crashsafe_overwrite ["d", "f"] ["t"] 3 (mkWorld 2
        [.error { kind := .otherKind, rawOsError := some eioErrno, msg := "" }]) =
      (.error { kind := .otherKind, rawOsError := some eioErrno, msg := "" },
       { openFiles := { slots := [Slot.empty, Slot.empty], next := 0 },
         nextFileId := 0, held := none, events := [Ev.evRemoveFile ["t"]],
         script := [] }) := by
  have h1 := crashsafe_overwrite_sequence ["d", "f"] ["t"] ["d"] 3
    { kind := .notFound, rawOsError := some 2, msg := "" } [] (mkWorld 2 [])
    rfl (by decide)
  have h2 := crashsafe_overwrite_sequence ["d", "f"] ["t"] ["d"] 3
    { kind := .otherKind, rawOsError := some eioErrno, msg := "" } []
    (mkWorld 2 []) rfl (by decide)
  exact ⟨⟨rfl, by decide⟩, h1.2.1, h1.2.2.1 rfl, h2.2.2.2.1 (by decide)⟩
